import Mathlib

/-!
Verification of the iceberg-rust transaction/commit engine
(`iceberg-rust/src/table/transaction/operation.rs` and friends).

The Rust source is shallowly embedded: pure computations become Lean
functions, the object store becomes an explicit trace of `StoreOp`s
threaded through the executors, and fallible code returns `Except Error`.
Machine integers (`i32`, `i64`) are modelled as `Int` and `usize` as `Nat`;
no claim in scope exercises integer overflow, and the two sign-changing
casts that occur in the source are modelled faithfully (`usizeOfI32`,
`i32OfUsize`).  Avro byte blobs are modelled as typed entry lists
(`BlobContent`); byte lengths are outside the embedding.

Helpers that live in files of this repository that are not part of the
source snapshot (`util::Rectangle`, `struct_to_smallvec`,
`summary_to_rectangle`, `split_datafiles`, the `TableMetadata` accessors)
are modelled from the specification; each such definition carries a doc
comment starting with `Modelled from the spec:`.
-/

set_option maxRecDepth 8000

namespace Iceberg

/-- Error kinds of the crate (`error.rs`); only the variants reachable from
the embedded code paths are modelled. -/
inductive Error where
  | notFound (a b : String)
  | invalidFormat (s : String)
  | typeMismatch (s : String)
deriving DecidableEq, Repr

/-- Format version of the table (`FormatVersion`). -/
inductive FormatVersion where
  | v1
  | v2
deriving DecidableEq, Repr

/-- Scalar partition values (`Value`).  The integer-valued scalar types of
the source are carried as `Int`; floating-point variants are outside the
embedding (no claim involves them). -/
inductive Value where
  | int (v : Int)
  | longInt (v : Int)
  | date (v : Int)
  | time (v : Int)
  | timestamp (v : Int)
  | timestampTZ (v : Int)
  | string (v : String)
  | boolean (v : Bool)
deriving DecidableEq, Repr

/-- A partition tuple (`Struct`): named, possibly-null values. -/
structure Struct where
  fields : List (String × Option Value)
deriving DecidableEq, Repr

/-- Association-list lookup used to model the source's maps. -/
def alookup {α β : Type} [DecidableEq α] : List (α × β) → α → Option β
  | [], _ => none
  | (k, v) :: rest, key => if k = key then some v else alookup rest key

/-- Lookup mirroring `Struct::get(name)` composed with `and_then(as_ref)`. -/
def Struct.get (s : Struct) (name : String) : Option Value :=
  (alookup s.fields name).bind id

/-- A data file reference (`DataFile`); only the fields the transaction
engine reads are modelled. -/
structure DataFile where
  file_path : String
  partition : Struct
  record_count : Int
deriving DecidableEq, Repr

/-- Status of a manifest entry (`Status`). -/
inductive Status where
  | existing
  | added
  | deleted
deriving DecidableEq, Repr

/-- An entry of a manifest file (`ManifestEntry`). -/
structure ManifestEntry where
  format_version : FormatVersion
  status : Status
  snapshot_id : Option Int
  sequence_number : Option Int
  data_file : DataFile
deriving DecidableEq, Repr

/-- Content kind of a manifest (`Content`). -/
inductive Content where
  | data
  | deletes
deriving DecidableEq, Repr

/-- Per-partition-column summary (`FieldSummary`). -/
structure FieldSummary where
  contains_null : Bool
  contains_nan : Option Bool
  lower_bound : Option Value
  upper_bound : Option Value
deriving DecidableEq, Repr

/-- An entry of a manifest list (`ManifestListEntry`); key metadata bytes
are modelled as an opaque list. -/
structure ManifestListEntry where
  format_version : FormatVersion
  manifest_path : String
  manifest_length : Int
  partition_spec_id : Int
  content : Content
  sequence_number : Int
  min_sequence_number : Int
  added_snapshot_id : Int
  added_files_count : Option Int
  existing_files_count : Option Int
  deleted_files_count : Option Int
  added_rows_count : Option Int
  existing_rows_count : Option Int
  deleted_rows_count : Option Int
  partitions : Option (List FieldSummary)
  key_metadata : Option (List Nat)
deriving DecidableEq, Repr

/-- Operation recorded in a snapshot summary (`snapshot::Operation`). -/
inductive SummaryOperation where
  | append
  | replace
  | overwrite
  | delete
deriving DecidableEq, Repr

/-- Snapshot summary (`Summary`); the `other` map is an association list. -/
structure Summary where
  operation : SummaryOperation
  other : List (String × String)
deriving DecidableEq, Repr

/-- A snapshot (`Snapshot`); only the fields the transaction engine reads
or writes are modelled. -/
structure Snapshot where
  snapshot_id : Int
  sequence_number : Int
  manifest_list : String
  schema_id : Int
  summary : Summary
deriving DecidableEq, Repr

/-- Snapshot retention policy (`SnapshotRetention`); defaults to a branch
retention with no explicit limits. -/
inductive SnapshotRetention where
  | branch (min_snapshots_to_keep : Option Int) (max_snapshot_age_ms : Option Int)
      (max_ref_age_ms : Option Int)
  | tag (max_ref_age_ms : Option Int)
deriving DecidableEq, Repr

/-- Default retention (`SnapshotRetention::default()`): a branch retention
with all limits unset. -/
def SnapshotRetention.default_retention : SnapshotRetention :=
  SnapshotRetention.branch none none none

/-- A named reference to a snapshot (`SnapshotReference`). -/
structure SnapshotReference where
  snapshot_id : Int
  retention : SnapshotRetention
deriving DecidableEq, Repr

/-- A partition field of a partition spec (`PartitionField`); the engine
only reads the field names. -/
structure PartitionField where
  name : String
deriving DecidableEq, Repr

/-- A table schema (`Schema`); the transaction engine only reads its id. -/
structure Schema where
  schema_id : Int
deriving DecidableEq, Repr

/-- Table metadata (`TableMetadata`); maps are association lists. -/
structure TableMetadata where
  format_version : FormatVersion
  location : String
  last_sequence_number : Int
  current_snapshot_id : Option Int
  snapshots : List (Int × Snapshot)
  refs : List (String × SnapshotReference)
  schemas : List (Int × Schema)
  current_schema_id : Int
  partition_specs : List (Int × List PartitionField)
  default_spec_id : Int
deriving DecidableEq, Repr

/-- Modelled from the spec: the `TableMetadata::default_partition_spec`
accessor (iceberg-rust-spec, not in the source snapshot): the partition
spec registered under `default_spec_id`. -/
def TableMetadata.default_partition_spec (md : TableMetadata) :
    Except Error (List PartitionField) :=
  match alookup md.partition_specs md.default_spec_id with
  | some spec => .ok spec
  | none => .error (.notFound "Partition spec" "default")

/-- Modelled from the spec: the `TableMetadata::current_schema` accessor
(iceberg-rust-spec, not in the source snapshot).  The spec records
`schema_id = current` for new snapshots, so the schema registered under
`current_schema_id` is returned. -/
def TableMetadata.current_schema (md : TableMetadata) (_branch : Option String) :
    Except Error Schema :=
  match alookup md.schemas md.current_schema_id with
  | some schema => .ok schema
  | none => .error (.notFound "Schema" "current")

/-- Modelled from the spec: the `TableMetadata::current_snapshot` accessor
(iceberg-rust-spec, not in the source snapshot).  Resolves the branch name
(default "main") in `refs`; a missing "main" ref falls back to
`current_snapshot_id`; an id that is not in `snapshots` is a `NotFound`
failure (the spec makes such ids an invariant violation). -/
def TableMetadata.current_snapshot (md : TableMetadata) (branch : Option String) :
    Except Error (Option Snapshot) :=
  match alookup md.refs (branch.getD "main") with
  | some r =>
    match alookup md.snapshots r.snapshot_id with
    | some s => .ok (some s)
    | none => .error (.notFound "Snapshot" "for ref")
  | none =>
    if branch.getD "main" = "main" then
      match md.current_snapshot_id with
      | none => .ok none
      | some id =>
        match alookup md.snapshots id with
        | some s => .ok (some s)
        | none => .error (.notFound "Snapshot" "current")
    else .ok none

/-- Decidable equality for `Except` results. -/
instance {ε α : Type} [DecidableEq ε] [DecidableEq α] :
    DecidableEq (Except ε α) := fun x y =>
  match x, y with
  | .ok a, .ok b =>
    if h : a = b then isTrue (by rw [h])
    else isFalse (by intro hh; injection hh; contradiction)
  | .ok _, .error _ => isFalse (by intro hh; cases hh)
  | .error _, .ok _ => isFalse (by intro hh; cases hh)
  | .error e, .error f =>
    if h : e = f then isTrue (by rw [h])
    else isFalse (by intro hh; injection hh; contradiction)

/-- Modelled from the spec: the per-scalar-type total order of `Value`
comparisons (util, not in the source snapshot); incomparable types yield a
failure. -/
def Value.tryCompare : Value → Value → Except Error Ordering
  | .int a, .int b => .ok (compare a b)
  | .longInt a, .longInt b => .ok (compare a b)
  | .date a, .date b => .ok (compare a b)
  | .time a, .time b => .ok (compare a b)
  | .timestamp a, .timestamp b => .ok (compare a b)
  | .timestampTZ a, .timestampTZ b => .ok (compare a b)
  | .string a, .string b => .ok (compare a b)
  | _, _ => .error (.typeMismatch "value comparison")

/-- Integer payload of an integer-valued scalar; fails on other types. -/
def Value.intPayload : Value → Except Error Int
  | .int v => .ok v
  | .longInt v => .ok v
  | .date v => .ok v
  | .time v => .ok v
  | .timestamp v => .ok v
  | .timestampTZ v => .ok v
  | _ => .error (.typeMismatch "integer payload")

/-- Rebuild a value of the same scalar kind with a new integer payload;
fails on non-integer kinds. -/
def Value.withPayload : Value → Int → Except Error Value
  | .int _, p => .ok (.int p)
  | .longInt _, p => .ok (.longInt p)
  | .date _, p => .ok (.date p)
  | .time _, p => .ok (.time p)
  | .timestamp _, p => .ok (.timestamp p)
  | .timestampTZ _, p => .ok (.timestampTZ p)
  | _, _ => .error (.typeMismatch "integer payload")

/-- Componentwise minimum under `tryCompare`. -/
def Value.tryMin (a b : Value) : Except Error Value := do
  match ← Value.tryCompare a b with
  | .gt => pure b
  | _ => pure a

/-- Componentwise maximum under `tryCompare`. -/
def Value.tryMax (a b : Value) : Except Error Value := do
  match ← Value.tryCompare a b with
  | .lt => pure b
  | _ => pure a

/-- Modelled from the spec: util's `Rectangle`, an n-dimensional min/max
bounding box over partition tuples. -/
structure Rectangle where
  min : List Value
  max : List Value
deriving DecidableEq, Repr

/-- Modelled from the spec: `Rectangle::expand_with_node`, the
componentwise `min = min(min,p)`, `max = max(max,p)` merge with a point. -/
def Rectangle.expand_with_node (r : Rectangle) (p : List Value) :
    Except Error Rectangle := do
  let newMin ← (r.min.zip p).mapM fun (a, b) => Value.tryMin a b
  let newMax ← (r.max.zip p).mapM fun (a, b) => Value.tryMax a b
  pure ⟨newMin, newMax⟩

/-- Modelled from the spec: `Rectangle::expand`, the componentwise min/max
merge with another rectangle. -/
def Rectangle.expand (r other : Rectangle) : Except Error Rectangle := do
  let newMin ← (r.min.zip other.min).mapM fun (a, b) => Value.tryMin a b
  let newMax ← (r.max.zip other.max).mapM fun (a, b) => Value.tryMax a b
  pure ⟨newMin, newMax⟩

/-- Width of one dimension, `max − min`, defined for integer-valued
scalars. -/
def dimWidth (lo hi : Value) : Except Error Int := do
  pure ((← hi.intPayload) - (← lo.intPayload))

/-- Modelled from the spec: `Rectangle::cmp_with_priority`.  Dimension 0 is
most significant; the first dimension whose `(max − min)` widths differ
decides, wider is greater; all equal yields `Equal`. -/
def Rectangle.cmp_with_priority (r other : Rectangle) : Except Error Ordering := do
  let w1 ← (r.min.zip r.max).mapM fun (lo, hi) => dimWidth lo hi
  let w2 ← (other.min.zip other.max).mapM fun (lo, hi) => dimWidth lo hi
  pure <| (w1.zip w2).foldl
    (fun acc (a, b) => match acc with
      | .eq => compare a b
      | o => o)
    .eq

/-- Modelled from the spec: util's `struct_to_smallvec`, projecting a
partition tuple onto the partition-column names in order; a missing or
null component is a failure. -/
def struct_to_smallvec (s : Struct) (names : List String) :
    Except Error (List Value) :=
  names.mapM fun n =>
    match s.get n with
    | some v => .ok v
    | none => .error (.notFound "Partition value" n)

/-- Modelled from the spec: util's `summary_to_rectangle`, reading the
bounding rectangle off a `partitions` field summary vector; an absent
bound is a failure. -/
def summary_to_rectangle (partitions : List FieldSummary) :
    Except Error Rectangle := do
  let lo ← partitions.mapM fun s =>
    match s.lower_bound with
    | some v => Except.ok v
    | none => Except.error (Error.notFound "Lower" "bound")
  let hi ← partitions.mapM fun s =>
    match s.upper_bound with
    | some v => Except.ok v
    | none => Except.error (Error.notFound "Upper" "bound")
  pure ⟨lo, hi⟩

/-- One lower-bound merge step of `update_partitions` (operation.rs): the
current bound is lowered when the new value is smaller and both sides are
the same integer-valued scalar kind; other pairings leave it unchanged. -/
def mergeLower (value current : Value) : Value :=
  match value, current with
  | .int v, .int c => .int (if c > v then v else c)
  | .longInt v, .longInt c => .longInt (if c > v then v else c)
  | .date v, .date c => .date (if c > v then v else c)
  | .time v, .time c => .time (if c > v then v else c)
  | .timestamp v, .timestamp c => .timestamp (if c > v then v else c)
  | .timestampTZ v, .timestampTZ c => .timestampTZ (if c > v then v else c)
  | _, c => c

/-- One upper-bound merge step of `update_partitions` (operation.rs). -/
def mergeUpper (value current : Value) : Value :=
  match value, current with
  | .int v, .int c => .int (if c < v then v else c)
  | .longInt v, .longInt c => .longInt (if c < v then v else c)
  | .date v, .date c => .date (if c < v then v else c)
  | .time v, .time c => .time (if c < v then v else c)
  | .timestamp v, .timestamp c => .timestamp (if c < v then v else c)
  | .timestampTZ v, .timestampTZ c => .timestampTZ (if c < v then v else c)
  | _, c => c

/-- The `update_partitions` function (operation.rs): zips the partition
columns with the summaries and merges each present value into the
lower/upper bounds.  The source returns `Ok(())` on every path, so the
model is total. -/
def update_partitions (partitions : List FieldSummary)
    (partition_values : Struct) (partition_columns : List PartitionField) :
    List FieldSummary :=
  match partition_columns, partitions with
  | field :: fs, summary :: ss =>
    (match partition_values.get field.name with
      | none => summary
      | some value =>
        { summary with
          lower_bound := summary.lower_bound.map (mergeLower value)
          upper_bound := summary.upper_bound.map (mergeUpper value) })
      :: update_partitions ss partition_values fs
  | _, ps => ps

/-- Contents of an object-store blob.  Avro encoding is outside the
embedding: a blob is its decoded entry list. -/
inductive BlobContent where
  | manifest (entries : List ManifestEntry)
  | manifestList (entries : List ManifestListEntry)
deriving DecidableEq, Repr

/-- One object-store operation, recorded in program order. -/
inductive StoreOp where
  | get (path : String)
  | put (path : String) (content : BlobContent)
deriving DecidableEq, Repr

/-- The object store as a path-indexed map; `get` of an absent path is the
store's failure, surfaced as an external error. -/
def storeGet (store : List (String × BlobContent)) (path : String) :
    Except Error BlobContent :=
  match alookup store path with
  | some c => .ok c
  | none => .error (.notFound "Object" path)

/-- Characters following the first "://" of a character list, if any. -/
def afterScheme : List Char → Option (List Char)
  | ':' :: '/' :: '/' :: rest => some rest
  | _ :: cs => afterScheme cs
  | [] => none

/-- Drops characters up to and including the first slash. -/
def dropAuthority : List Char → List Char
  | [] => []
  | c :: cs => if c = '/' then cs else dropAuthority cs

/-- Modelled from the spec: util's `strip_prefix` (iceberg-rust-spec, not
in the source snapshot), stripping the scheme and authority prefix of a
URI; a string without a scheme is returned unchanged. -/
def stripScheme (s : String) : String :=
  match afterScheme s.data with
  | some rest => String.mk (dropAuthority rest)
  | none => s

/-- A requirement emitted towards the catalog (`TableRequirement`). -/
inductive TableRequirement where
  | assertRefSnapshotId (ref : String) (snapshot_id : Int)
deriving DecidableEq, Repr

/-- An update emitted towards the catalog (`TableUpdate`). -/
inductive TableUpdate where
  | addSchema (schema : Schema) (last_column_id : Option Int)
  | setDefaultSpec (spec_id : Int)
  | setProperties (updates : List (String × String))
  | addSnapshot (snapshot : Snapshot)
  | removeSnapshots (snapshot_ids : List Int)
  | setSnapshotRef (ref_name : String) (snapshot_reference : SnapshotReference)
deriving DecidableEq, Repr

/-- The Rust `i32 → usize` cast (sign extension to 64 bits reinterpreted
as unsigned). -/
def usizeOfI32 (i : Int) : Nat := (i % (2 : Int) ^ 64).toNat

/-- Wrap an integer into the `i32` range. -/
def wrap32 (z : Int) : Int := (z + 2 ^ 31) % 2 ^ 32 - 2 ^ 31

/-- The Rust `usize → i32` cast. -/
def i32OfUsize (n : Nat) : Int := wrap32 n

/-- The bounding-rectangle fold over the input files
(operation.rs, `bounding_partition_values`): the rectangle over all files'
partition tuples, `none` for an empty input. -/
def boundingRect (pcn : List String) (files : List DataFile) :
    Except Error (Option Rectangle) :=
  files.foldlM
    (fun acc x => do
      let node ← struct_to_smallvec x.partition pcn
      match acc with
      | none => pure (some (Rectangle.mk node node))
      | some r => pure (some (← r.expand_with_node node)))
    none

/-- State of the manifest-selector folds: the current candidate (keyed by
row count or rectangle), the entries passed through to the new
manifest-list writer in order, and the file-count accumulator. -/
structure SelSt (α : Type) where
  acc : Option (α × ManifestListEntry)
  written : List ManifestListEntry
  file_count : Nat
deriving Repr

/-- One step of the unpartitioned selector fold (operation.rs, Append):
keeps the candidate with the smaller `added_rows_count`, forwarding the
loser to the manifest-list writer.  Mirrors the source's early returns:
the first entry is held without forwarding anything, and an entry with
`added_rows_count = None` arriving after the first is returned past
without being forwarded. -/
def selUnpartStep (st : SelSt (Option Int)) (manifest : ManifestListEntry) :
    SelSt (Option Int) :=
  let row_count := manifest.added_rows_count
  let fc := st.file_count + usizeOfI32 (manifest.added_files_count.getD 0)
  match st.acc with
  | none => ⟨some (row_count, manifest), st.written, fc⟩
  | some (old_row_count, old_manifest) =>
    match row_count with
    | none => ⟨some (old_row_count, old_manifest), st.written, fc⟩
    | some rc =>
      match old_row_count with
      | none => ⟨some (some rc, manifest), st.written ++ [old_manifest], fc⟩
      | some x =>
        if x > rc then ⟨some (some rc, manifest), st.written ++ [old_manifest], fc⟩
        else ⟨some (old_row_count, old_manifest), st.written ++ [manifest], fc⟩

/-- The unpartitioned selector fold over a manifest list. -/
def selectUnpartitioned (entries : List ManifestListEntry) : SelSt (Option Int) :=
  entries.foldl selUnpartStep ⟨none, [], 0⟩

/-- One step of the partitioned selector fold (operation.rs, Append):
keeps the candidate whose rectangle, expanded by the incoming batch's
bounding rectangle, is smallest under `cmp_with_priority`; the loser is
forwarded to the manifest-list writer. -/
def selPartStep (bounding : Rectangle) (st : SelSt Rectangle)
    (manifest : ManifestListEntry) : Except Error (SelSt Rectangle) := do
  let psums ← match manifest.partitions with
    | some p => pure p
    | none => Except.error (Error.notFound "Partition" "struct")
  let bounds0 ← summary_to_rectangle psums
  let bounds ← bounds0.expand bounding
  let fc := st.file_count + usizeOfI32 (manifest.added_files_count.getD 0)
  match st.acc with
  | none => pure ⟨some (bounds, manifest), st.written, fc⟩
  | some (old_bounds, old_manifest) =>
    match ← old_bounds.cmp_with_priority bounds with
    | .gt => pure ⟨some (bounds, manifest), st.written ++ [old_manifest], fc⟩
    | _ => pure ⟨some (old_bounds, old_manifest), st.written ++ [manifest], fc⟩

/-- The partitioned selector fold over a manifest list. -/
def selectPartitioned (bounding : Rectangle) (entries : List ManifestListEntry) :
    Except Error (SelSt Rectangle) :=
  entries.foldlM (selPartStep bounding) ⟨none, [], 0⟩

/-- The result of the manifest-selection fold over the fetched manifest
list (operation.rs lines 143-231): the selected entry, the passed-through
entries, and the accumulated file count. -/
def selResult (pcn : List String) (bounding : Rectangle)
    (blob : Except Error BlobContent) :
    Except Error (Option ManifestListEntry × List ManifestListEntry × Nat) :=
  match blob with
  | .error e => .error e
  | .ok (.manifest _) => .error (.invalidFormat "manifest list")
  | .ok (.manifestList entries) =>
    if pcn.isEmpty then
      let st := selectUnpartitioned entries
      match st.acc with
      | none => .error (.notFound "Manifest" "file")
      | some (_, m) => .ok (some m, st.written, st.file_count)
    else
      match selectPartitioned bounding entries with
      | .error e => .error e
      | .ok st =>
        match st.acc with
        | none => .error (.notFound "Manifest" "file")
        | some (_, m) => .ok (some m, st.written, st.file_count)

/-- The manifest-selection phase of Append (operation.rs lines 135-236):
reads the old manifest list when an old snapshot exists and runs the
matching selector fold; yields the selected entry, the passed-through
entries, and the accumulated file count, plus the store trace. -/
def appendSelect (pcn : List String) (bounding : Rectangle)
    (old_snapshot : Option Snapshot) (store : List (String × BlobContent)) :
    List StoreOp × Except Error (Option ManifestListEntry × List ManifestListEntry × Nat) :=
  match old_snapshot with
  | none => ([], .ok (none, [], 0))
  | some snap =>
    ([.get (stripScheme snap.manifest_list)],
     selResult pcn bounding (storeGet store (stripScheme snap.manifest_list)))

/-- The split threshold constant (operation.rs). -/
def MIN_DATAFILES : Nat := 4

/-- Floor square root by structural recursion (provably equal to
`Nat.sqrt`, see `floorSqrt_eq_sqrt`). -/
def floorSqrt : Nat → Nat
  | 0 => 0
  | n + 1 =>
    let r := floorSqrt n
    if (r + 1) * (r + 1) ≤ n + 1 then r + 1 else r

/-- Per-manifest file limit (operation.rs line 238).  The source computes
the square root in `f64`; for the sizes in scope that cast truncates to
the floor square root. -/
def appendLimit (file_count : Nat) (files_len : Nat) : Nat :=
  MIN_DATAFILES + floorSqrt (file_count + files_len)

/-- The prospective file count of the selected manifest
(operation.rs lines 240-244). -/
def appendNewFileCount (manifest : Option ManifestListEntry) (files_len : Nat) : Nat :=
  usizeOfI32 ((manifest.bind (·.added_files_count)).getD 0) + files_len

/-- Number of split rounds (operation.rs lines 247-250): zero when
`new_file_count / limit` is zero, otherwise its floor log2 plus one. -/
def appendNSplits (new_file_count lim : Nat) : Nat :=
  match new_file_count / lim with
  | 0 => 0
  | x => Nat.log2 x + 1

/-- Index of the dimension with the largest width (first of the maxima);
fails when the rectangle has no dimensions or a width is undefined. -/
def widestDim (bounds : Rectangle) : Except Error Nat := do
  let ws ← (bounds.min.zip bounds.max).mapM fun (lo, hi) => dimWidth lo hi
  match ws with
  | [] => Except.error (Error.notFound "Partition" "dimension")
  | w :: rest =>
    pure (rest.enum.foldl
      (fun (best : Nat × Int) (iw : Nat × Int) =>
        if iw.2 > best.2 then (iw.1 + 1, iw.2) else best)
      (0, w)).1

/-- Insertion into a sorted list of integers. -/
def insertSorted (x : Int) : List Int → List Int
  | [] => [x]
  | y :: ys => if x ≤ y then x :: y :: ys else y :: insertSorted x ys

/-- Insertion sort for lists of integers. -/
def sortInts (l : List Int) : List Int := l.foldr insertSorted []

/-- Median of a list of integers: the middle element (lower middle for an
even length) of the sorted list. -/
def medianInt (vals : List Int) : Int :=
  let sorted := sortInts vals
  sorted.getD ((sorted.length - 1) / 2) 0

/-- Component of a value list at a dimension index; out of range is a
failure. -/
def getDim (l : List Value) (d : Nat) : Except Error Value :=
  match l.get? d with
  | some v => .ok v
  | none => .error (.notFound "Partition" "dimension")

/-- The partition value of one entry along dimension `d`. -/
def entrySplitVal (names : List String) (d : Nat) (e : ManifestEntry) :
    Except Error Int := do
  let sv ← struct_to_smallvec e.data_file.partition names
  (← getDim sv d).intPayload

/-- Pivot choice of one split step: the median of the group's values
along the split dimension, or the midpoint of the bounds when the group
supplies no values. -/
def pivotOf (vals : List Int) (lod hid : Value) : Except Error Int :=
  match vals with
  | [] => do pure (((← lod.intPayload) + (← hid.intPayload)) / 2)
  | _ => pure (medianInt vals)

/-- Modelled from the spec: `split_datafiles` (transaction/append.rs, not
in the source snapshot).  Each split step finds the widest dimension of
the current rectangle, pivots at the median of the entries' partition
values along it (the midpoint of the bounds when the group supplies no
values), routes each entry to the low or high child, derives the child
rectangles from the pivot, and recurses; `n` steps yield `2 ^ n` groups. -/
def split_datafiles (entries : List ManifestEntry) (bounds : Rectangle)
    (names : List String) : Nat → Except Error (List (List ManifestEntry))
  | 0 => .ok [entries]
  | n + 1 => do
    let d ← widestDim bounds
    let lod ← getDim bounds.min d
    let hid ← getDim bounds.max d
    let vals ← entries.mapM (entrySplitVal names d)
    let pivot ← pivotOf vals lod hid
    let pivotVal ← lod.withPayload pivot
    let tagged := entries.zip vals
    let low := (tagged.filter fun ev => ev.2 ≤ pivot).map (·.1)
    let high := (tagged.filter fun ev => ¬ ev.2 ≤ pivot).map (·.1)
    let ls ← split_datafiles low ⟨bounds.min, bounds.max.set d pivotVal⟩ names n
    let hs ← split_datafiles high ⟨bounds.min.set d pivotVal, bounds.max⟩ names n
    pure (ls ++ hs)

/-- The new manifest entries built from the input files (operation.rs
lines 266-276): status `Added`, carrying the new snapshot id and the
sequence number `last_sequence_number + 1`. -/
def mkNewEntries (md : TableMetadata) (files : List DataFile)
    (snapshot_id sequence_number : Int) : List ManifestEntry :=
  files.map fun data_file =>
    { format_version := md.format_version
      status := .added
      snapshot_id := some snapshot_id
      sequence_number := some sequence_number
      data_file := data_file }

/-- The fresh manifest-list entry literal of operation.rs (lines 322-339,
repeated at 441-458 and 596-613): zero counts, `sequence_number` set to
the table's `last_sequence_number`, no partition summaries yet. -/
def freshListEntry (md : TableMetadata) (manifest_path : String)
    (snapshot_id : Int) : ManifestListEntry :=
  { format_version := md.format_version
    manifest_path := manifest_path
    manifest_length := 0
    partition_spec_id := md.default_spec_id
    content := .data
    sequence_number := md.last_sequence_number
    min_sequence_number := 0
    added_snapshot_id := snapshot_id
    added_files_count := some 0
    existing_files_count := some 0
    deleted_files_count := some 0
    added_rows_count := some 0
    existing_rows_count := some 0
    deleted_rows_count := some 0
    partitions := none
    key_metadata := none }

/-- Location of the i-th new manifest file. -/
def manifestPath (md : TableMetadata) (uuid : String) (i : Nat) : String :=
  md.location ++ "/metadata/" ++ uuid ++ "-m" ++ toString i ++ ".avro"

/-- Location of the new manifest list written by Append (operation.rs
lines 284-288; no separator between snapshot id and uuid). -/
def appendListPath (md : TableMetadata) (snapshot_id : Int) (uuid : String) : String :=
  md.location ++ "/metadata/snap-" ++ toString snapshot_id ++ uuid ++ ".avro"

/-- Location of the new manifest list written by Rewrite (operation.rs
lines 582-587; a dash between snapshot id and uuid). -/
def rewriteListPath (md : TableMetadata) (snapshot_id : Int) (uuid : String) : String :=
  md.location ++ "/metadata/snap-" ++ toString snapshot_id ++ "-" ++ uuid ++ ".avro"

/-- Stand-in for the byte length of an encoded manifest blob; the Avro
encoding is outside the embedding and no claim reads `manifest_length`. -/
def blobLen (entries : List ManifestEntry) : Int := entries.length

/-- One iteration of the Append per-entry bookkeeping loop (operation.rs
lines 343-383, repeated at 460-498): lazily initialise `partitions` from
the default partition spec, merge the entry's partition values into the
summaries, append the entry to the manifest writer, and update the counts.
The source increments `added_files_count` by `new_file_count as i32` on
every iteration and `added_rows_count` by the entry's `record_count`. -/
def appendCountsStep (pfields : List PartitionField) (new_file_count : Nat)
    (st : ManifestListEntry × List ManifestEntry) (e : ManifestEntry) :
    ManifestListEntry × List ManifestEntry :=
  let manifest := st.1
  let manifest :=
    if manifest.partitions.isNone then
      { manifest with
        partitions := some (pfields.map fun _ => ⟨false, none, none, none⟩) }
    else manifest
  let added_rows_count := e.data_file.record_count
  let manifest :=
    { manifest with
      partitions := some (update_partitions (manifest.partitions.getD [])
        e.data_file.partition pfields) }
  let written := st.2 ++ [e]
  let manifest :=
    { manifest with
      added_files_count := some (match manifest.added_files_count with
        | some count => count + i32OfUsize new_file_count
        | none => i32OfUsize new_file_count)
      added_rows_count := some (match manifest.added_rows_count with
        | some count => count + added_rows_count
        | none => added_rows_count) }
  (manifest, written)

/-- The Append per-entry bookkeeping loop over a list of new entries,
starting from a manifest-list entry and an empty writer. -/
def appendCountsLoop (pfields : List PartitionField) (new_file_count : Nat)
    (init : ManifestListEntry) (entries : List ManifestEntry) :
    ManifestListEntry × List ManifestEntry :=
  entries.foldl (appendCountsStep pfields new_file_count) (init, [])

/-- Writing one split group (operation.rs lines 427-514): a fresh
manifest-list entry at index `i`, the bookkeeping loop over the group, and
the manifest put. -/
def splitGroupWrite (md : TableMetadata) (pfields : List PartitionField)
    (new_file_count : Nat) (snapshot_id : Int) (uuid : String)
    (i : Nat) (entries : List ManifestEntry) : StoreOp × ManifestListEntry :=
  let manifest := freshListEntry md (manifestPath md uuid i) snapshot_id
  let (final0, written) := appendCountsLoop pfields new_file_count manifest entries
  let final := { final0 with manifest_length := final0.manifest_length + blobLen written }
  (.put (stripScheme final.manifest_path) (.manifest written), final)

/-- The manifest-writing phase of Append (operation.rs lines 238-515):
computes the limit, the prospective file count, the split depth and the
expanded bounds, then either extends (or creates) a single manifest or
splits the chained entries into `2 ^ n_splits` fresh manifests.  Returns
the store trace of this phase and the manifest-list entries produced. -/
def appendWrite (md : TableMetadata) (pfields : List PartitionField)
    (pcn : List String) (bounding : Rectangle)
    (manifestOpt : Option ManifestListEntry) (file_count : Nat)
    (files : List DataFile) (snapshot_id : Int) (uuid : String)
    (store : List (String × BlobContent)) :
    List StoreOp × Except Error (List ManifestListEntry) :=
  let lim := appendLimit file_count files.length
  let new_file_count := appendNewFileCount manifestOpt files.length
  let n_splits := appendNSplits new_file_count lim
  let boundsE : Except Error Rectangle :=
    match manifestOpt.bind (·.partitions) with
    | some psums =>
      match summary_to_rectangle psums with
      | .error e => .error e
      | .ok r => r.expand bounding
    | none => .ok bounding
  let newEntries := mkNewEntries md files snapshot_id (md.last_sequence_number + 1)
  match boundsE with
  | .error e => ([], .error e)
  | .ok bounds =>
    if n_splits = 0 then
      match manifestOpt with
      | some manifest =>
        let mpath := stripScheme manifest.manifest_path
        match storeGet store mpath with
        | .error e => ([.get mpath], .error e)
        | .ok (.manifestList _) => ([.get mpath], .error (.invalidFormat "manifest"))
        | .ok (.manifest existing) =>
          let (final0, newWritten) :=
            appendCountsLoop pfields new_file_count manifest newEntries
          let blob := existing ++ newWritten
          let final := { final0 with
            manifest_length := final0.manifest_length + blobLen blob }
          ([.get mpath, .put (stripScheme final.manifest_path) (.manifest blob)],
           .ok [final])
      | none =>
        let manifest := freshListEntry md (manifestPath md uuid 0) snapshot_id
        let (final0, newWritten) :=
          appendCountsLoop pfields new_file_count manifest newEntries
        let final := { final0 with
          manifest_length := final0.manifest_length + blobLen newWritten }
        ([.put (stripScheme final.manifest_path) (.manifest newWritten)],
         .ok [final])
    else
      match manifestOpt with
      | some manifest =>
        let mpath := stripScheme manifest.manifest_path
        match storeGet store mpath with
        | .error e => ([.get mpath], .error e)
        | .ok (.manifestList _) => ([.get mpath], .error (.invalidFormat "manifest"))
        | .ok (.manifest existing) =>
          match split_datafiles (newEntries ++ existing) bounds pcn n_splits with
          | .error e => ([.get mpath], .error e)
          | .ok groups =>
            let results := groups.enum.map fun (i, g) =>
              splitGroupWrite md pfields new_file_count snapshot_id uuid i g
            (.get mpath :: results.map (·.1), .ok (results.map (·.2)))
      | none =>
        match split_datafiles newEntries bounds pcn n_splits with
        | .error e => ([], .error e)
        | .ok groups =>
          let results := groups.enum.map fun (i, g) =>
            splitGroupWrite md pfields new_file_count snapshot_id uuid i g
          (results.map (·.1), .ok (results.map (·.2)))

/-- The resolution prelude of Append (operation.rs lines 97-122): the
default partition spec, the current schema, the current snapshot of the
branch, and the bounding rectangle over the input files' partitions (a
`NotFound` failure on empty input). -/
def appendPrelude (md : TableMetadata) (branch : Option String)
    (files : List DataFile) :
    Except Error (List PartitionField × Schema × Option Snapshot × Rectangle) := do
  let pspec ← md.default_partition_spec
  let schema ← md.current_schema branch
  let old ← md.current_snapshot branch
  let pcn := pspec.map (·.name)
  match ← boundingRect pcn files with
  | some b => pure (pspec, schema, old, b)
  | none => Except.error (Error.notFound "Bounding" "rectangle")

/-- The new snapshot built by Append (operation.rs lines 526-542):
sequence number is the old snapshot's plus one, or zero without an old
snapshot; the summary operation is `Append`. -/
def mkAppendSnapshot (old : Option Snapshot) (schema : Schema)
    (snapshot_id : Int) (list_location : String)
    (additional_summary : Option (List (String × String))) : Snapshot :=
  { snapshot_id := snapshot_id
    sequence_number := (old.map (·.sequence_number + 1)).getD 0
    manifest_list := list_location
    schema_id := schema.schema_id
    summary := ⟨.append, additional_summary.getD []⟩ }

/-- The requirement emitted by Append and Rewrite (operation.rs lines
545-548 and 684-687): asserts the branch tip exactly when an old snapshot
exists. -/
def refRequirement (branch : Option String) (old : Option Snapshot) :
    Option TableRequirement :=
  old.map fun s => .assertRefSnapshotId (branch.getD "main") s.snapshot_id

/-- The updates emitted by Append (operation.rs lines 549-558). -/
def appendUpdates (branch : Option String) (snapshot : Snapshot)
    (snapshot_id : Int) : List TableUpdate :=
  [.addSnapshot snapshot,
   .setSnapshotRef (branch.getD "main")
     ⟨snapshot_id, SnapshotRetention.default_retention⟩]

/-- The Append executor (operation.rs lines 92-560), with the random
snapshot id and uuid as explicit inputs and the object store as data.
Returns the trace of store operations alongside the
requirement/updates result. -/
def appendExecute (md : TableMetadata) (branch : Option String)
    (files : List DataFile) (additional_summary : Option (List (String × String)))
    (snapshot_id : Int) (uuid : String) (store : List (String × BlobContent)) :
    List StoreOp × Except Error (Option TableRequirement × List TableUpdate) :=
  match appendPrelude md branch files with
  | .error e => ([], .error e)
  | .ok (pspec, schema, old_snapshot, bounding) =>
    let pcn := pspec.map (·.name)
    match appendSelect pcn bounding old_snapshot store with
    | (ops1, .error e) => (ops1, .error e)
    | (ops1, .ok (manifestOpt, passed, file_count)) =>
      match appendWrite md pspec pcn bounding manifestOpt file_count files
          snapshot_id uuid store with
      | (ops2, .error e) => (ops1 ++ ops2, .error e)
      | (ops2, .ok newEntries) =>
        let listLoc := appendListPath md snapshot_id uuid
        let snapshot := mkAppendSnapshot old_snapshot schema snapshot_id listLoc
          additional_summary
        (ops1 ++ ops2 ++
          [.put (stripScheme listLoc) (.manifestList (passed ++ newEntries))],
         .ok (refRequirement branch old_snapshot,
              appendUpdates branch snapshot snapshot_id))

/-- One insertion into the partition-grouping map. -/
def insertGrouped (acc : List (Struct × List DataFile)) (key : Struct)
    (f : DataFile) : List (Struct × List DataFile) :=
  match acc with
  | [] => [(key, [f])]
  | (k, gs) :: rest =>
    if k = key then (k, gs ++ [f]) :: rest
    else (k, gs) :: insertGrouped rest key f

/-- The partition grouping of Rewrite (operation.rs lines 570-578): the
input files keyed by their exact partition tuple.  The source groups into
a `HashMap` whose iteration order is unspecified; the model fixes
first-occurrence insertion order, which is one of its admissible orders. -/
def groupByPartition (files : List DataFile) : List (Struct × List DataFile) :=
  files.foldl (fun acc f => insertGrouped acc f.partition f) []

/-- The `current_snapshot_id.ok_or(NotFound)` read of `write_manifest`
(operation.rs lines 800-803). -/
def getSnapshotIdE (md : TableMetadata) : Except Error Int :=
  match md.current_snapshot_id with
  | some id => .ok id
  | none => .error (.notFound "Snapshot" "id")

/-- The sequence-number extraction of `write_manifest` (operation.rs
lines 805-809): the current snapshot's sequence number, `NotFound` when
the branch has no snapshot. -/
def getSeqE (snapOpt : Option Snapshot) : Except Error Int :=
  match snapOpt.map (·.sequence_number) with
  | some s => .ok s
  | none => .error (.notFound "Sequence" "number")

/-- The manifest entry built inside `write_manifest` (operation.rs lines
797-813): status `Added`, snapshot id from `current_snapshot_id` and
sequence number from the current snapshot of the branch, each a `NotFound`
failure when absent. -/
def mkRewriteEntry (md : TableMetadata) (branch : Option String)
    (datafile : DataFile) : Except Error ManifestEntry := do
  let sid ← getSnapshotIdE md
  let snapOpt ← md.current_snapshot branch
  let seq ← getSeqE snapOpt
  pure
    { format_version := md.format_version
      status := .added
      snapshot_id := some sid
      sequence_number := some seq
      data_file := datafile }

/-- One iteration of the `write_manifest` bookkeeping loop (operation.rs
lines 769-826): partition-summary maintenance, entry construction and
append, and the count updates (the source increments `added_files_count`
by `files_count` on every iteration). -/
def rewriteCountsStep (md : TableMetadata) (branch : Option String)
    (pfields : List PartitionField) (files_count : Int)
    (st : ManifestListEntry × List ManifestEntry) (datafile : DataFile) :
    Except Error (ManifestListEntry × List ManifestEntry) := do
  let manifest := st.1
  let manifest :=
    if manifest.partitions.isNone then
      { manifest with
        partitions := some (pfields.map fun _ => ⟨false, none, none, none⟩) }
    else manifest
  let added_rows_count := datafile.record_count
  let manifest :=
    { manifest with
      partitions := some (update_partitions (manifest.partitions.getD [])
        datafile.partition pfields) }
  let entry ← mkRewriteEntry md branch datafile
  let written := st.2 ++ [entry]
  let manifest :=
    { manifest with
      added_files_count := some (match manifest.added_files_count with
        | some count => count + files_count
        | none => files_count)
      added_rows_count := some (match manifest.added_rows_count with
        | some count => count + added_rows_count
        | none => added_rows_count) }
  pure (manifest, written)

/-- The `datafiles.get(&path).ok_or(InvalidFormat)` lookup of
`write_manifest` (operation.rs lines 770-772). -/
def lookupGroup (datafiles : List (Struct × List DataFile)) (path : Struct) :
    Except Error (List DataFile) :=
  match alookup datafiles path with
  | some g => .ok g
  | none => .error (.invalidFormat "Datafiles for partition value")

/-- The partition-key loop of `write_manifest` (operation.rs lines
769-826): for each key, look its group up in the grouping map and fold
the bookkeeping step over the group's datafiles. -/
def manifestFilesLoop (md : TableMetadata) (branch : Option String)
    (pfields : List PartitionField) (files_count : Int)
    (datafiles : List (Struct × List DataFile)) (files : List Struct)
    (st : ManifestListEntry × List ManifestEntry) :
    Except Error (ManifestListEntry × List ManifestEntry) :=
  files.foldlM
    (fun st path => do
      let group ← lookupGroup datafiles path
      group.foldlM (rewriteCountsStep md branch pfields files_count) st)
    st

/-- The `write_manifest` helper (operation.rs lines 743-842): streams the
datafiles of the given partition keys into a fresh manifest, maintaining
counts and summaries, then puts the manifest blob. -/
def write_manifest (md : TableMetadata) (manifest : ManifestListEntry)
    (files : List Struct) (datafiles : List (Struct × List DataFile))
    (branch : Option String) : List StoreOp × Except Error ManifestListEntry :=
  match md.default_partition_spec with
  | .error e => ([], .error e)
  | .ok pfields =>
    let files_count := manifest.added_files_count.getD 0 + i32OfUsize files.length
    match manifestFilesLoop md branch pfields files_count datafiles files
        (manifest, []) with
    | .error e => ([], .error e)
    | .ok (final0, written) =>
      let final := { final0 with
        manifest_length := final0.manifest_length + blobLen written }
      ([.put (stripScheme final.manifest_path) (.manifest written)], .ok final)

/-- The Rewrite manifest loop (operation.rs lines 589-652): one fresh
manifest per partition group, written through `write_manifest` and
appended to the manifest-list writer.  The source drives the groups
through a concurrent stream; the writes are modelled in group order. -/
def writeManifests (md : TableMetadata) (branch : Option String)
    (datafiles : List (Struct × List DataFile)) (snapshot_id : Int)
    (uuid : String) :
    Nat → List (Struct × List DataFile) →
    List StoreOp × Except Error (List ManifestListEntry)
  | _, [] => ([], .ok [])
  | i, (key, _) :: rest =>
    let manifest := freshListEntry md (manifestPath md uuid i) snapshot_id
    match write_manifest md manifest [key] datafiles branch with
    | (ops, .error e) => (ops, .error e)
    | (ops, .ok entry) =>
      match writeManifests md branch datafiles snapshot_id uuid (i + 1) rest with
      | (ops2, .error e) => (ops ++ ops2, .error e)
      | (ops2, .ok entries) => (ops ++ ops2, .ok (entry :: entries))

/-- The new snapshot built by Rewrite (operation.rs lines 666-678): its
sequence number is the literal zero and the summary operation is recorded
as `Append`. -/
def mkRewriteSnapshot (schema : Schema) (snapshot_id : Int)
    (list_location : String)
    (additional_summary : Option (List (String × String))) : Snapshot :=
  { snapshot_id := snapshot_id
    sequence_number := 0
    manifest_list := list_location
    schema_id := schema.schema_id
    summary := ⟨.append, additional_summary.getD []⟩ }

/-- The updates emitted by Rewrite (operation.rs lines 688-700): remove
all prior snapshots, add the new one, repoint the branch. -/
def rewriteUpdates (md : TableMetadata) (branch : Option String)
    (snapshot : Snapshot) (snapshot_id : Int) : List TableUpdate :=
  [.removeSnapshots (md.snapshots.map (·.1)),
   .addSnapshot snapshot,
   .setSnapshotRef (branch.getD "main")
     ⟨snapshot_id, SnapshotRetention.default_retention⟩]

/-- The Rewrite executor (operation.rs lines 561-702), with the random
snapshot id and uuid as explicit inputs.  Rewrite never reads the object
store: it writes fresh manifests for the grouped input files only. -/
def rewriteExecute (md : TableMetadata) (branch : Option String)
    (files : List DataFile) (additional_summary : Option (List (String × String)))
    (snapshot_id : Int) (uuid : String) :
    List StoreOp × Except Error (Option TableRequirement × List TableUpdate) :=
  match md.current_snapshot branch with
  | .error e => ([], .error e)
  | .ok old_snapshot =>
    match md.current_schema branch with
    | .error e => ([], .error e)
    | .ok schema =>
      let datafiles := groupByPartition files
      let listLoc := rewriteListPath md snapshot_id uuid
      match writeManifests md branch datafiles snapshot_id uuid 0 datafiles with
      | (ops, .error e) => (ops, .error e)
      | (ops, .ok entries) =>
        let snapshot := mkRewriteSnapshot schema snapshot_id listLoc
          additional_summary
        (ops ++ [.put (stripScheme listLoc) (.manifestList entries)],
         .ok (refRequirement branch old_snapshot,
              rewriteUpdates md branch snapshot snapshot_id))

/-! Concrete fixtures and result extractors used by the theorems below. -/

/-- An empty unpartitioned V2 table. -/
def mdEmpty : TableMetadata :=
  { format_version := .v2
    location := "s3://bucket/table"
    last_sequence_number := 0
    current_snapshot_id := none
    snapshots := []
    refs := []
    schemas := [(0, ⟨0⟩)]
    current_schema_id := 0
    partition_specs := [(0, [])]
    default_spec_id := 0 }

/-- Two data files with empty partition tuples and 10 and 20 records. -/
def files2 : List DataFile := [⟨"a", ⟨[]⟩, 10⟩, ⟨"b", ⟨[]⟩, 20⟩]

/-- A manifest-list entry fixture with the given path and counts. -/
def listEntryFix (path : String) (afc arc : Option Int) : ManifestListEntry :=
  { format_version := .v2
    manifest_path := path
    manifest_length := 0
    partition_spec_id := 0
    content := .data
    sequence_number := 0
    min_sequence_number := 0
    added_snapshot_id := 1
    added_files_count := afc
    existing_files_count := some 0
    deleted_files_count := some 0
    added_rows_count := arc
    existing_rows_count := some 0
    deleted_rows_count := some 0
    partitions := none
    key_metadata := none }

/-- The snapshot of the one-snapshot table fixture. -/
def snap0 : Snapshot :=
  ⟨1, 0, "s3://bucket/table/metadata/snap-1-x.avro", 0, ⟨.append, []⟩⟩

/-- A table with one snapshot on "main". -/
def mdOne : TableMetadata :=
  { mdEmpty with
    current_snapshot_id := some 1
    snapshots := [(1, snap0)]
    refs := [("main", ⟨1, .default_retention⟩)] }

/-- The manifest-list entry of `snap0`'s manifest list. -/
def m0entry : ManifestListEntry :=
  listEntryFix "s3://bucket/table/metadata/x-m0.avro" (some 1) (some 5)

/-- The single pre-existing manifest entry of the one-snapshot table. -/
def eOld : ManifestEntry := ⟨.v2, .added, some 1, some 0, ⟨"old", ⟨[]⟩, 5⟩⟩

/-- Object store contents backing `mdOne`. -/
def storeOne : List (String × BlobContent) :=
  [("table/metadata/snap-1-x.avro", .manifestList [m0entry]),
   ("table/metadata/x-m0.avro", .manifest [eOld])]

/-- Sixteen manifest entries over a one-dimensional integer partition. -/
def entries16 : List ManifestEntry :=
  (List.range 16).map fun i =>
    ⟨.v2, .added, some 42, some 1, ⟨"f", ⟨[("d", some (.int i))]⟩, 1⟩⟩

/-- The bounding rectangle of `entries16`. -/
def rect16 : Rectangle := ⟨[.int 0], [.int 15]⟩

/-- Selector fixture: a manifest list with an unknown, a large and a small
row count. -/
def entriesFix : List ManifestListEntry :=
  [listEntryFix "p1" (some 1) none,
   listEntryFix "p2" (some 1) (some 5),
   listEntryFix "p3" (some 1) (some 3)]

/-- The manifest blobs put by a trace, in order. -/
def manifestPuts (ops : List StoreOp) : List (List ManifestEntry) :=
  ops.filterMap fun op =>
    match op with
    | .put _ (.manifest es) => some es
    | _ => none

/-- The manifest-list blobs put by a trace, in order. -/
def listPuts (ops : List StoreOp) : List (List ManifestListEntry) :=
  ops.filterMap fun op =>
    match op with
    | .put _ (.manifestList es) => some es
    | _ => none

/-- Number of `Added` entries in a manifest blob. -/
def countAdded (es : List ManifestEntry) : Nat :=
  (es.filter fun e => e.status == Status.added).length

/-- Sum of `record_count` over the `Added` entries of a manifest blob. -/
def sumAddedRecords (es : List ManifestEntry) : Int :=
  ((es.filter fun e => e.status == Status.added).map
    (fun e => e.data_file.record_count)).sum

/-- Sequence numbers of the snapshots added by an update list. -/
def addedSnapshotSeqs (upds : List TableUpdate) : List Int :=
  upds.filterMap fun u =>
    match u with
    | .addSnapshot s => some s.sequence_number
    | _ => none

/-- Snapshot ids of the snapshots added by an update list. -/
def addedSnapshotIds (upds : List TableUpdate) : List Int :=
  upds.filterMap fun u =>
    match u with
    | .addSnapshot s => some s.snapshot_id
    | _ => none

/-- Checks the exact Append update shape: an `AddSnapshot` followed by a
`SetSnapshotRef` of the branch to the new id with default retention. -/
def appendUpdatesShape (branch : Option String) (sid : Int)
    (upds : List TableUpdate) : Bool :=
  match upds with
  | [.addSnapshot _, .setSnapshotRef name ref] =>
    name == branch.getD "main" &&
      ref == ⟨sid, SnapshotRetention.default_retention⟩
  | _ => false

/-- Whether an `Except` result is a success. -/
def isOkB {ε α : Type} : Except ε α → Bool
  | .ok _ => true
  | .error _ => false

/-- Whether an `Except` result is a `NotFound` failure. -/
def isNotFoundB {α : Type} : Except Error α → Bool
  | .error (.notFound _ _) => true
  | _ => false

/-- Value of a successful `Except`, with a default for failures. -/
def exceptGetD {ε α : Type} : Except ε α → α → α
  | .ok a, _ => a
  | .error _, d => d

/-- An optional row count is at most `v`; an unknown count never
satisfies this (it is treated as infinite). -/
def leOpt (rc : Option Int) (v : Int) : Prop :=
  match rc with
  | some w => w ≤ v
  | none => False

/-- Whether a store operation is admissible before the manifest-list put:
a read, or a put carrying a manifest blob. -/
def preListOpOk : StoreOp → Bool
  | .put _ (.manifest _) => true
  | .put _ _ => false
  | .get _ => true

/-- Checks the write-ordering discipline of an Append trace: the final
operation is the manifest-list put at the given path, and every earlier
put carries a manifest blob. -/
def appendTraceOk (listPath : String) (ops : List StoreOp) : Bool :=
  match ops.getLast? with
  | some (StoreOp.put p (BlobContent.manifestList _)) =>
    p == listPath && ops.dropLast.all preListOpOk
  | _ => false

/-- Whether a trace contains no object-store reads. -/
def noGets (ops : List StoreOp) : Bool :=
  ops.all fun op =>
    match op with
    | .get _ => false
    | _ => true

/-! Helper lemmas. -/

theorem bindOk {ε α β : Type} {x : Except ε α} {f : α → Except ε β} {b : β}
    (h : x >>= f = .ok b) : ∃ a, x = .ok a ∧ f a = .ok b := by
  cases x with
  | error e => simp [Bind.bind, Except.bind] at h
  | ok a => exact ⟨a, rfl, by simpa [Bind.bind, Except.bind] using h⟩

theorem default_partition_spec_error {md : TableMetadata} {e : Error}
    (h : md.default_partition_spec = .error e) : ∃ a b, e = .notFound a b := by
  unfold TableMetadata.default_partition_spec at h
  cases halt : alookup md.partition_specs md.default_spec_id <;> rw [halt] at h
  · exact ⟨_, _, by injection h with h; exact h.symm⟩
  · simp at h

theorem current_schema_error {md : TableMetadata} {branch : Option String} {e : Error}
    (h : md.current_schema branch = .error e) : ∃ a b, e = .notFound a b := by
  unfold TableMetadata.current_schema at h
  cases halt : alookup md.schemas md.current_schema_id <;> rw [halt] at h
  · exact ⟨_, _, by injection h with h; exact h.symm⟩
  · simp at h

theorem current_snapshot_error {md : TableMetadata} {branch : Option String} {e : Error}
    (h : md.current_snapshot branch = .error e) : ∃ a b, e = .notFound a b := by
  unfold TableMetadata.current_snapshot at h
  rcases h1 : alookup md.refs (branch.getD "main") with _ | r
  · by_cases hm : branch.getD "main" = "main"
    · rw [h1, if_pos hm] at h
      rcases h2 : md.current_snapshot_id with _ | id
      · simp [h2] at h
      · rcases h3 : alookup md.snapshots id with _ | s
        · simp [h2, h3] at h
          exact ⟨_, _, h.symm⟩
        · simp [h2, h3] at h
    · rw [h1, if_neg hm] at h
      simp at h
  · rw [h1] at h
    rcases h2 : alookup md.snapshots r.snapshot_id with _ | s
    · simp [h2] at h
      exact ⟨_, _, h.symm⟩
    · simp [h2] at h

theorem floorSqrt_spec (n : Nat) :
    floorSqrt n * floorSqrt n ≤ n ∧ n < (floorSqrt n + 1) * (floorSqrt n + 1) := by
  induction n with
  | zero => simp [floorSqrt]
  | succ k ih =>
    have hfs : floorSqrt (k + 1) =
        if (floorSqrt k + 1) * (floorSqrt k + 1) ≤ k + 1 then floorSqrt k + 1
        else floorSqrt k := rfl
    rw [hfs]
    by_cases h : (floorSqrt k + 1) * (floorSqrt k + 1) ≤ k + 1
    · rw [if_pos h]
      exact ⟨h, by nlinarith [ih.2]⟩
    · rw [if_neg h]
      exact ⟨Nat.le_trans ih.1 (Nat.le_succ k), Nat.lt_of_not_le h⟩

theorem floorSqrt_eq_sqrt (n : Nat) : floorSqrt n = Nat.sqrt n :=
  Nat.eq_sqrt.mpr (floorSqrt_spec n)

theorem appendPrelude_nil (md : TableMetadata) (branch : Option String) :
    ∃ a b, appendPrelude md branch [] = .error (.notFound a b) := by
  unfold appendPrelude
  cases h1 : md.default_partition_spec with
  | error e =>
    obtain ⟨a, b, rfl⟩ := default_partition_spec_error h1
    exact ⟨a, b, by simp [Bind.bind, Except.bind, h1]⟩
  | ok pspec =>
    cases h2 : md.current_schema branch with
    | error e =>
      obtain ⟨a, b, rfl⟩ := current_schema_error h2
      exact ⟨a, b, by simp [Bind.bind, Except.bind, h1, h2]⟩
    | ok schema =>
      cases h3 : md.current_snapshot branch with
      | error e =>
        obtain ⟨a, b, rfl⟩ := current_snapshot_error h3
        exact ⟨a, b, by simp [Bind.bind, Except.bind, h1, h2, h3]⟩
      | ok old =>
        refine ⟨"Bounding", "rectangle", ?_⟩
        simp [Bind.bind, Except.bind, h1, h2, h3, boundingRect, List.foldlM,
          Pure.pure, Except.pure]

theorem split_datafiles_length :
    ∀ (n : Nat) (entries : List ManifestEntry) (bounds : Rectangle)
      (names : List String) (groups : List (List ManifestEntry)),
      split_datafiles entries bounds names n = .ok groups → groups.length = 2 ^ n := by
  intro n
  induction n with
  | zero =>
    intro entries bounds names groups h
    unfold split_datafiles at h
    injection h with h
    simp [← h]
  | succ k ih =>
    intro entries bounds names groups h
    unfold split_datafiles at h
    obtain ⟨d, _, h⟩ := bindOk h
    obtain ⟨lod, _, h⟩ := bindOk h
    obtain ⟨hid, _, h⟩ := bindOk h
    obtain ⟨vals, _, h⟩ := bindOk h
    obtain ⟨pivot, _, h⟩ := bindOk h
    obtain ⟨pivotVal, _, h⟩ := bindOk h
    obtain ⟨ls, hls, h⟩ := bindOk h
    obtain ⟨hs, hhs, h⟩ := bindOk h
    have hg : groups = ls ++ hs := by
      simpa [Pure.pure, Except.pure] using h.symm
    rw [hg, List.length_append, ih _ _ _ _ hls, ih _ _ _ _ hhs, pow_succ]
    omega

/-! Claim theorems. -/

/-- Claim C7: Append with an empty `files` list fails with a `NotFound`
error before performing any object-store write: the trace is empty and no
updates are produced. -/
theorem C7_append_empty_files (md : TableMetadata) (branch : Option String)
    (adds : Option (List (String × String))) (sid : Int) (uuid : String)
    (store : List (String × BlobContent)) :
    (appendExecute md branch [] adds sid uuid store).1 = [] ∧
    isNotFoundB (appendExecute md branch [] adds sid uuid store).2 = true := by
  obtain ⟨a, b, h⟩ := appendPrelude_nil md branch
  unfold appendExecute
  rw [h]
  exact ⟨rfl, rfl⟩

/-- Claim C4: with `MIN_DATAFILES = 4` the per-manifest limit is
`4 + ⌊√(file_count + files.len())⌋`, the prospective file count adds the
selected manifest's `added_files_count`, and the split depth is
`⌊log2(new_file_count / limit)⌋ + 1` when the quotient is non-zero (zero
otherwise); in the spec's instance (60 existing files, 100 appended) the
limit is 16, the depth is 4, and splitting yields `2^4 = 16` manifests
(`split_datafiles` always yields `2^n` groups on success). -/
theorem C4_split_arithmetic :
    (∀ fc fl, appendLimit fc fl = MIN_DATAFILES + Nat.sqrt (fc + fl)) ∧
    (∀ nfc lim, appendNSplits nfc lim =
      if nfc / lim = 0 then 0 else Nat.log2 (nfc / lim) + 1) ∧
    appendLimit 60 100 = 16 ∧
    appendNewFileCount (some (listEntryFix "m" (some 60) (some 0))) 100 = 160 ∧
    appendNSplits 160 (appendLimit 60 100) = 4 ∧
    (∀ entries bounds names n groups,
      split_datafiles entries bounds names n = .ok groups → groups.length = 2 ^ n) ∧
    (split_datafiles entries16 rect16 ["d"] 4).map List.length = .ok 16 := by
  refine ⟨fun fc fl => by unfold appendLimit; rw [floorSqrt_eq_sqrt], ?_,
    by decide, by decide,
    by rw [(by decide : appendLimit 60 100 = 16)]; norm_num [appendNSplits, Nat.log2],
    fun e b nm n g h => split_datafiles_length n e b nm g h, by decide⟩
  intro nfc lim
  unfold appendNSplits
  rcases h : nfc / lim with _ | x <;> simp [h]

/-- Claim C4 witness: the split-depth clause applied to the spec's
concrete instance, giving the sixteen written manifests. -/
theorem C4_witness :
    exceptGetD ((split_datafiles entries16 rect16 ["d"] 4).map List.length) 0
      = 2 ^ 4 := by
  have hs : split_datafiles entries16 rect16 ["d"] 4 =
      .ok (exceptGetD (split_datafiles entries16 rect16 ["d"] 4) []) := by decide
  have h := C4_split_arithmetic.2.2.2.2.2.1 entries16 rect16 ["d"] 4 _ hs
  rw [hs]
  simpa [exceptGetD, Except.map] using h

/-- Claim C1 (refuting evaluation): on a fresh unpartitioned table,
appending two files with 10 and 20 records writes one manifest containing
exactly 2 `Added` entries totalling 30 records, yet the manifest-list
entry records `added_files_count = 4` (the loop adds `new_file_count` per
entry instead of 1); `added_rows_count = 30` is correct. -/
theorem C1_added_files_count_bug :
    (manifestPuts (appendExecute mdEmpty none files2 none 42 "u" []).1).map countAdded
      = [2] ∧
    (manifestPuts (appendExecute mdEmpty none files2 none 42 "u" []).1).map sumAddedRecords
      = [30] ∧
    (listPuts (appendExecute mdEmpty none files2 none 42 "u" []).1).map
      (fun l => l.map (·.added_files_count)) = [[some 4]] ∧
    (listPuts (appendExecute mdEmpty none files2 none 42 "u" []).1).map
      (fun l => l.map (·.added_rows_count)) = [[some 30]] ∧
    (some (4 : Int) ≠ some (2 : Int)) := by
  refine ⟨by decide, by decide, by decide, by decide, by decide⟩

/-- Claim C6 (refuting evaluation): in the unpartitioned selector, a
manifest-list entry with `added_rows_count = None` that arrives after a
candidate is neither selected nor forwarded to the new manifest-list
writer — it is dropped. -/
theorem C6_dropped_entry :
    (selectUnpartitioned [listEntryFix "p1" (some 1) (some 10),
        listEntryFix "p2" (some 1) none]).acc
      = some (some 10, listEntryFix "p1" (some 1) (some 10)) ∧
    (selectUnpartitioned [listEntryFix "p1" (some 1) (some 10),
        listEntryFix "p2" (some 1) none]).written = [] ∧
    listEntryFix "p2" (some 1) none ∉
      (selectUnpartitioned [listEntryFix "p1" (some 1) (some 10),
        listEntryFix "p2" (some 1) none]).written := by
  refine ⟨by decide, by decide, by decide⟩

theorem isOkB_ok {ε α : Type} {x : Except ε α} (h : isOkB x = true) :
    ∃ a, x = .ok a := by
  cases x with
  | ok a => exact ⟨a, rfl⟩
  | error e => simp [isOkB] at h

theorem appendPrelude_ok {md : TableMetadata} {branch : Option String}
    {files : List DataFile} {pspec : List PartitionField} {schema : Schema}
    {old : Option Snapshot} {bounding : Rectangle}
    (h : appendPrelude md branch files = .ok (pspec, schema, old, bounding)) :
    md.default_partition_spec = .ok pspec ∧
    md.current_schema branch = .ok schema ∧
    md.current_snapshot branch = .ok old := by
  unfold appendPrelude at h
  obtain ⟨ps, hps, h⟩ := bindOk h
  obtain ⟨sc, hsc, h⟩ := bindOk h
  obtain ⟨ol, hol, h⟩ := bindOk h
  obtain ⟨bo, hbo, h⟩ := bindOk h
  cases bo with
  | none => simp [Pure.pure, Except.pure] at h
  | some b =>
    simp only [Pure.pure, Except.pure, Except.ok.injEq, Prod.mk.injEq] at h
    obtain ⟨h1, h2, h3, h4⟩ := h
    rw [← h1, ← h2, ← h3]
    exact ⟨hps, hsc, hol⟩

theorem appendExecute_ok {md : TableMetadata} {branch : Option String}
    {files : List DataFile} {adds : Option (List (String × String))}
    {sid : Int} {uuid : String} {store : List (String × BlobContent)}
    {ops : List StoreOp} {res : Option TableRequirement × List TableUpdate}
    (h : appendExecute md branch files adds sid uuid store = (ops, .ok res)) :
    ∃ pspec schema old bounding ops1 manifestOpt passed fc ops2 newEntries,
      appendPrelude md branch files = .ok (pspec, schema, old, bounding) ∧
      appendSelect (pspec.map (·.name)) bounding old store
        = (ops1, .ok (manifestOpt, passed, fc)) ∧
      appendWrite md pspec (pspec.map (·.name)) bounding manifestOpt fc files
        sid uuid store = (ops2, .ok newEntries) ∧
      ops = ops1 ++ ops2 ++
        [.put (stripScheme (appendListPath md sid uuid))
          (.manifestList (passed ++ newEntries))] ∧
      res = (refRequirement branch old,
             appendUpdates branch
               (mkAppendSnapshot old schema sid (appendListPath md sid uuid) adds)
               sid) := by
  unfold appendExecute at h
  rcases hp : appendPrelude md branch files with e | ⟨pspec, schema, old, bounding⟩ <;>
    rw [hp] at h
  · simp at h
  · dsimp only at h
    rcases hsel : appendSelect (pspec.map (·.name)) bounding old store with ⟨ops1, r1⟩
    rw [hsel] at h
    rcases r1 with e | ⟨manifestOpt, passed, fc⟩
    · simp at h
    · dsimp only at h
      rcases hw : appendWrite md pspec (pspec.map (·.name)) bounding manifestOpt
          fc files sid uuid store with ⟨ops2, r2⟩
      rw [hw] at h
      rcases r2 with e | newEntries
      · simp at h
      · dsimp only at h
        rw [Prod.mk.injEq] at h
        obtain ⟨h1, h2⟩ := h
        injection h2 with h2
        exact ⟨pspec, schema, old, bounding, ops1, manifestOpt, passed, fc,
          ops2, newEntries, rfl, hsel, hw, h1.symm, h2.symm⟩

theorem rewriteExecute_ok {md : TableMetadata} {branch : Option String}
    {files : List DataFile} {adds : Option (List (String × String))}
    {sid : Int} {uuid : String} {ops : List StoreOp}
    {res : Option TableRequirement × List TableUpdate}
    (h : rewriteExecute md branch files adds sid uuid = (ops, .ok res)) :
    ∃ old schema wops entries,
      md.current_snapshot branch = .ok old ∧
      md.current_schema branch = .ok schema ∧
      writeManifests md branch (groupByPartition files) sid uuid 0
        (groupByPartition files) = (wops, .ok entries) ∧
      ops = wops ++
        [.put (stripScheme (rewriteListPath md sid uuid)) (.manifestList entries)] ∧
      res = (refRequirement branch old,
             rewriteUpdates md branch
               (mkRewriteSnapshot schema sid (rewriteListPath md sid uuid) adds)
               sid) := by
  unfold rewriteExecute at h
  rcases h1 : md.current_snapshot branch with e | old <;> rw [h1] at h
  · simp at h
  · rcases h2 : md.current_schema branch with e | schema <;> rw [h2] at h
    · simp at h
    · dsimp only at h
      rcases hwm : writeManifests md branch (groupByPartition files) sid uuid 0
          (groupByPartition files) with ⟨wops, rw1⟩
      rw [hwm] at h
      rcases rw1 with e | entries
      · simp at h
      · dsimp only at h
        rw [Prod.mk.injEq] at h
        obtain ⟨ha, hb⟩ := h
        injection hb with hb
        exact ⟨old, schema, wops, entries, rfl, rfl, rfl, ha.symm, hb.symm⟩

theorem appendResultFacts (md : TableMetadata) (branch : Option String)
    (files : List DataFile) (adds : Option (List (String × String)))
    (sid : Int) (uuid : String) (store : List (String × BlobContent))
    (old : Option Snapshot)
    (hok : isOkB (appendExecute md branch files adds sid uuid store).2 = true)
    (hold : md.current_snapshot branch = .ok old) :
    (appendExecute md branch files adds sid uuid store).2.map (fun r => r.1)
      = .ok (old.map fun s =>
          TableRequirement.assertRefSnapshotId (branch.getD "main") s.snapshot_id) ∧
    (appendExecute md branch files adds sid uuid store).2.map
      (fun r => appendUpdatesShape branch sid r.2) = .ok true ∧
    (appendExecute md branch files adds sid uuid store).2.map
      (fun r => addedSnapshotSeqs r.2)
      = .ok [(old.map (fun s => s.sequence_number + 1)).getD 0] ∧
    (appendExecute md branch files adds sid uuid store).2.map
      (fun r => addedSnapshotIds r.2) = .ok [sid] := by
  obtain ⟨res, h2⟩ := isOkB_ok hok
  have h : appendExecute md branch files adds sid uuid store
      = ((appendExecute md branch files adds sid uuid store).1, .ok res) := by
    rw [← h2]
  obtain ⟨pspec, schema, old', bounding, ops1, mo, passed, fc, ops2, newE,
    hp, _, _, _, hres⟩ := appendExecute_ok h
  have hold' : md.current_snapshot branch = .ok old' := (appendPrelude_ok hp).2.2
  have : old' = old := by
    rw [hold'] at hold
    injection hold
  rw [this] at hres
  rw [h2, hres]
  refine ⟨rfl, ?_, ?_, ?_⟩
  · simp [Except.map, appendUpdates, appendUpdatesShape]
  · cases old <;>
      simp [Except.map, appendUpdates, addedSnapshotSeqs, mkAppendSnapshot]
  · simp [Except.map, appendUpdates, addedSnapshotIds, mkAppendSnapshot]

/-- Claim C3: on every successful Append, the emitted requirement is
`AssertRefSnapshotId{branch, old snapshot id}` exactly when an old
snapshot exists; the updates are exactly `[AddSnapshot, SetSnapshotRef
(default retention)]` in that order; and the new snapshot carries the
given snapshot id and sequence number `old + 1`, or 0 with no old
snapshot. -/
theorem C3_append_result (md : TableMetadata) (branch : Option String)
    (files : List DataFile) (adds : Option (List (String × String)))
    (sid : Int) (uuid : String) (store : List (String × BlobContent))
    (old : Option Snapshot)
    (hok : isOkB (appendExecute md branch files adds sid uuid store).2 = true)
    (hold : md.current_snapshot branch = .ok old) :
    (appendExecute md branch files adds sid uuid store).2.map (fun r => r.1)
      = .ok (old.map fun s =>
          TableRequirement.assertRefSnapshotId (branch.getD "main") s.snapshot_id) ∧
    (appendExecute md branch files adds sid uuid store).2.map
      (fun r => appendUpdatesShape branch sid r.2) = .ok true ∧
    (appendExecute md branch files adds sid uuid store).2.map
      (fun r => addedSnapshotSeqs r.2)
      = .ok [(old.map (fun s => s.sequence_number + 1)).getD 0] ∧
    (appendExecute md branch files adds sid uuid store).2.map
      (fun r => addedSnapshotIds r.2) = .ok [sid] :=
  appendResultFacts md branch files adds sid uuid store old hok hold

/-- Claim C3 witness: the Append result properties at the one-snapshot
table, where the requirement asserts the old branch tip. -/
theorem C3_witness :
    (appendExecute mdOne none files2 none 44 "u3" storeOne).2.map (fun r => r.1)
      = .ok ((some snap0).map fun s =>
          TableRequirement.assertRefSnapshotId ((none : Option String).getD "main")
            s.snapshot_id) ∧
    (appendExecute mdOne none files2 none 44 "u3" storeOne).2.map
      (fun r => appendUpdatesShape none 44 r.2) = .ok true ∧
    (appendExecute mdOne none files2 none 44 "u3" storeOne).2.map
      (fun r => addedSnapshotSeqs r.2)
      = .ok [((some snap0).map (fun s => s.sequence_number + 1)).getD 0] ∧
    (appendExecute mdOne none files2 none 44 "u3" storeOne).2.map
      (fun r => addedSnapshotIds r.2) = .ok [44] :=
  C3_append_result mdOne none files2 none 44 "u3" storeOne (some snap0)
    (by decide) (by decide)

theorem splitGroupWrite_fst_ok (md : TableMetadata) (pfields : List PartitionField)
    (nfc : Nat) (sid : Int) (uuid : String) (i : Nat) (g : List ManifestEntry) :
    preListOpOk (splitGroupWrite md pfields nfc sid uuid i g).1 = true := rfl

theorem appendSelect_ops {pcn : List String} {bounding : Rectangle}
    {old : Option Snapshot} {store : List (String × BlobContent)}
    {ops1 : List StoreOp}
    {r : Except Error (Option ManifestListEntry × List ManifestListEntry × Nat)}
    (h : appendSelect pcn bounding old store = (ops1, r)) :
    ops1.all preListOpOk = true := by
  unfold appendSelect at h
  cases old <;>
    · rw [Prod.mk.injEq] at h
      rw [← h.1]
      rfl

theorem appendWrite_ops {md : TableMetadata} {pfields : List PartitionField}
    {pcn : List String} {bounding : Rectangle} {mo : Option ManifestListEntry}
    {fc : Nat} {files : List DataFile} {sid : Int} {uuid : String}
    {store : List (String × BlobContent)} {ops2 : List StoreOp}
    {r : Except Error (List ManifestListEntry)}
    (h : appendWrite md pfields pcn bounding mo fc files sid uuid store = (ops2, r)) :
    ops2.all preListOpOk = true := by
  unfold appendWrite at h
  dsimp only at h
  split at h
  · rw [Prod.mk.injEq] at h
    rw [← h.1]
    rfl
  · split at h
    · split at h
      · split at h
        · rw [Prod.mk.injEq] at h
          rw [← h.1]
          rfl
        · rw [Prod.mk.injEq] at h
          rw [← h.1]
          rfl
        · rw [Prod.mk.injEq] at h
          rw [← h.1]
          rfl
      · rw [Prod.mk.injEq] at h
        rw [← h.1]
        rfl
    · split at h
      · split at h
        · rw [Prod.mk.injEq] at h
          rw [← h.1]
          rfl
        · rw [Prod.mk.injEq] at h
          rw [← h.1]
          rfl
        · split at h
          · rw [Prod.mk.injEq] at h
            rw [← h.1]
            rfl
          · rw [Prod.mk.injEq] at h
            rw [← h.1]
            apply List.all_eq_true.mpr
            intro op hop
            rcases List.mem_cons.mp hop with rfl | hop2
            · rfl
            · rw [List.map_map] at hop2
              obtain ⟨⟨i, g⟩, _, rfl⟩ := List.mem_map.mp hop2
              exact splitGroupWrite_fst_ok md pfields _ sid uuid i g
      · split at h
        · rw [Prod.mk.injEq] at h
          rw [← h.1]
          rfl
        · rw [Prod.mk.injEq] at h
          rw [← h.1]
          apply List.all_eq_true.mpr
          intro op hop
          rw [List.map_map] at hop
          obtain ⟨⟨i, g⟩, _, rfl⟩ := List.mem_map.mp hop
          exact splitGroupWrite_fst_ok md pfields _ sid uuid i g

/-- Claim C8: in every successful Append, all manifest puts happen before
the manifest-list put, which is the last store operation of the run; the
result is only produced with the completed trace. -/
theorem C8_write_order (md : TableMetadata) (branch : Option String)
    (files : List DataFile) (adds : Option (List (String × String)))
    (sid : Int) (uuid : String) (store : List (String × BlobContent))
    (hok : isOkB (appendExecute md branch files adds sid uuid store).2 = true) :
    appendTraceOk (stripScheme (appendListPath md sid uuid))
      (appendExecute md branch files adds sid uuid store).1 = true := by
  obtain ⟨res, h2⟩ := isOkB_ok hok
  have h : appendExecute md branch files adds sid uuid store
      = ((appendExecute md branch files adds sid uuid store).1, .ok res) := by
    rw [← h2]
  obtain ⟨pspec, schema, old, bounding, ops1, mo, passed, fc, ops2, newE,
    _, hsel, hw, hops, _⟩ := appendExecute_ok h
  rw [hops]
  unfold appendTraceOk
  rw [List.append_assoc, ← List.append_assoc, List.getLast?_concat,
    List.dropLast_concat]
  dsimp only
  rw [List.all_append, appendSelect_ops hsel, appendWrite_ops hw]
  simp

/-- Claim C8 witness: the trace discipline on a concrete successful
Append over the one-snapshot table. -/
theorem C8_witness :
    appendTraceOk (stripScheme (appendListPath mdOne 44 "u3"))
      (appendExecute mdOne none files2 none 44 "u3" storeOne).1 = true :=
  C8_write_order mdOne none files2 none 44 "u3" storeOne (by decide)

/-- Claim C2 (amended): Append strictly increases the sequence number on
a branch with an old snapshot (new = old + 1); Rewrite instead always
records sequence number 0 for its new snapshot. -/
theorem C2_amended :
    (∀ (md : TableMetadata) (branch : Option String) (files : List DataFile)
      (adds : Option (List (String × String))) (sid : Int) (uuid : String)
      (store : List (String × BlobContent)) (old : Snapshot),
      isOkB (appendExecute md branch files adds sid uuid store).2 = true →
      md.current_snapshot branch = .ok (some old) →
      (appendExecute md branch files adds sid uuid store).2.map
        (fun r => addedSnapshotSeqs r.2) = .ok [old.sequence_number + 1] ∧
      old.sequence_number < old.sequence_number + 1) ∧
    (∀ (md : TableMetadata) (branch : Option String) (files : List DataFile)
      (adds : Option (List (String × String))) (sid : Int) (uuid : String),
      isOkB (rewriteExecute md branch files adds sid uuid).2 = true →
      (rewriteExecute md branch files adds sid uuid).2.map
        (fun r => addedSnapshotSeqs r.2) = .ok [0]) := by
  constructor
  · intro md branch files adds sid uuid store old hok hold
    refine ⟨?_, by omega⟩
    have h3 := (appendResultFacts md branch files adds sid uuid store (some old)
      hok hold).2.2.1
    simpa using h3
  · intro md branch files adds sid uuid hok
    obtain ⟨res, h2⟩ := isOkB_ok hok
    have h : rewriteExecute md branch files adds sid uuid
        = ((rewriteExecute md branch files adds sid uuid).1, .ok res) := by
      rw [← h2]
    obtain ⟨old, schema, wops, entries, _, _, _, _, hres⟩ := rewriteExecute_ok h
    rw [h2, hres]
    simp [Except.map, rewriteUpdates, addedSnapshotSeqs, mkRewriteSnapshot]

/-- Claim C2 witness: both amended clauses at the one-snapshot table. -/
theorem C2_witness :
    ((appendExecute mdOne none files2 none 44 "u3" storeOne).2.map
      (fun r => addedSnapshotSeqs r.2) = .ok [snap0.sequence_number + 1] ∧
     snap0.sequence_number < snap0.sequence_number + 1) ∧
    (rewriteExecute mdOne none files2 none 43 "u2").2.map
      (fun r => addedSnapshotSeqs r.2) = .ok [0] :=
  ⟨C2_amended.1 mdOne none files2 none 44 "u3" storeOne snap0
      (by decide) (by decide),
   C2_amended.2 mdOne none files2 none 43 "u2" (by decide)⟩

/-- Claim C2 counterexample: a successful Rewrite on a branch whose
current snapshot has sequence number 0 produces a snapshot with sequence
number 0, which is not strictly greater. -/
theorem C2_counterexample :
    mdOne.current_snapshot none = .ok (some snap0) ∧
    (rewriteExecute mdOne none files2 none 43 "u2").2.map
      (fun r => addedSnapshotSeqs r.2) = .ok [0] ∧
    ¬ (0 : Int) > snap0.sequence_number := by
  refine ⟨by decide, by decide, by decide⟩

theorem selUnpartStep_acc (st : SelSt (Option Int)) (e : ManifestListEntry) :
    (selUnpartStep st e).acc ≠ none := by
  rcases st with ⟨acc, written, fc⟩
  unfold selUnpartStep
  dsimp only
  rcases acc with _ | ⟨orc, om⟩
  · simp
  · rcases h : e.added_rows_count with _ | rc
    · simp
    · rcases orc with _ | x
      · simp
      · by_cases hx : x > rc <;> simp [hx]

theorem selUnpartStep_inv (st : SelSt (Option Int)) (e : ManifestListEntry)
    (seen : List ManifestListEntry)
    (hnone : st.acc = none → seen = [])
    (hinv : ∀ rc m, st.acc = some (rc, m) → m ∈ seen ∧ rc = m.added_rows_count ∧
      ∀ x ∈ seen, ∀ v, x.added_rows_count = some v → leOpt rc v) :
    ∀ rc m, (selUnpartStep st e).acc = some (rc, m) →
      m ∈ seen ++ [e] ∧ rc = m.added_rows_count ∧
      ∀ x ∈ seen ++ [e], ∀ v, x.added_rows_count = some v → leOpt rc v := by
  intro rc m hacc
  rcases st with ⟨acc, written, fc⟩
  rcases acc with _ | ⟨orc, om⟩
  · have hseen : seen = [] := hnone rfl
    subst hseen
    unfold selUnpartStep at hacc
    dsimp only at hacc
    rw [Option.some.injEq, Prod.mk.injEq] at hacc
    obtain ⟨h1, h2⟩ := hacc
    subst h2
    refine ⟨by simp, h1.symm, ?_⟩
    intro x hx v hv
    simp only [List.nil_append, List.mem_singleton] at hx
    subst hx
    rw [hv] at h1
    rw [← h1, hv] at *
    simp [leOpt, ← h1]
  · unfold selUnpartStep at hacc
    dsimp only at hacc
    rcases hrc : e.added_rows_count with _ | newrc <;> rw [hrc] at hacc
    · dsimp only at hacc
      rw [Option.some.injEq, Prod.mk.injEq] at hacc
      obtain ⟨h1, h2⟩ := hacc
      subst h2
      obtain ⟨hmem, hrceq, hmin⟩ := hinv orc om rfl
      refine ⟨List.mem_append_left _ hmem, h1 ▸ hrceq, ?_⟩
      intro x hx v hv
      rcases List.mem_append.mp hx with hx | hx
      · exact h1 ▸ hmin x hx v hv
      · rw [List.mem_singleton] at hx
        subst hx
        rw [hrc] at hv
        cases hv
    · rcases orc with _ | xval
      · dsimp only at hacc
        rw [Option.some.injEq, Prod.mk.injEq] at hacc
        obtain ⟨h1, h2⟩ := hacc
        subst h2
        obtain ⟨hmem, hrceq, hmin⟩ := hinv none om rfl
        refine ⟨List.mem_append_right _ (by simp), by rw [← h1, hrc], ?_⟩
        intro x hx v hv
        rcases List.mem_append.mp hx with hx | hx
        · exact absurd (hmin x hx v hv) (by simp [leOpt])
        · rw [List.mem_singleton] at hx
          subst hx
          rw [hrc] at hv
          injection hv with hv
          subst hv
          simp [← h1, leOpt]
      · by_cases hgt : xval > newrc <;> simp only [hgt, if_true, if_false] at hacc
        · rw [Option.some.injEq, Prod.mk.injEq] at hacc
          obtain ⟨h1, h2⟩ := hacc
          subst h2
          obtain ⟨hmem, hrceq, hmin⟩ := hinv (some xval) om rfl
          refine ⟨List.mem_append_right _ (by simp), by rw [← h1, hrc], ?_⟩
          intro x hx v hv
          rcases List.mem_append.mp hx with hx | hx
          · have hle := hmin x hx v hv
            simp only [leOpt] at hle ⊢
            rw [← h1]
            simp only [leOpt]
            omega
          · rw [List.mem_singleton] at hx
            subst hx
            rw [hrc] at hv
            injection hv with hv
            subst hv
            simp [← h1, leOpt]
        · rw [Option.some.injEq, Prod.mk.injEq] at hacc
          obtain ⟨h1, h2⟩ := hacc
          subst h2
          obtain ⟨hmem, hrceq, hmin⟩ := hinv (some xval) om rfl
          refine ⟨List.mem_append_left _ hmem, h1 ▸ hrceq, ?_⟩
          intro x hx v hv
          rcases List.mem_append.mp hx with hx | hx
          · exact h1 ▸ hmin x hx v hv
          · rw [List.mem_singleton] at hx
            subst hx
            rw [hrc] at hv
            injection hv with hv
            subst hv
            rw [← h1]
            simp only [leOpt]
            omega

theorem selUnpart_fold_inv :
    ∀ (entries : List ManifestListEntry) (st : SelSt (Option Int))
      (seen : List ManifestListEntry),
      (st.acc = none → seen = []) →
      (∀ rc m, st.acc = some (rc, m) → m ∈ seen ∧ rc = m.added_rows_count ∧
        ∀ x ∈ seen, ∀ v, x.added_rows_count = some v → leOpt rc v) →
      ((entries.foldl selUnpartStep st).acc = none → seen ++ entries = []) ∧
      (∀ rc m, (entries.foldl selUnpartStep st).acc = some (rc, m) →
        m ∈ seen ++ entries ∧ rc = m.added_rows_count ∧
        ∀ x ∈ seen ++ entries, ∀ v, x.added_rows_count = some v → leOpt rc v) := by
  intro entries
  induction entries with
  | nil =>
    intro st seen hnone hinv
    simpa using ⟨hnone, hinv⟩
  | cons e rest ih =>
    intro st seen hnone hinv
    have step := ih (selUnpartStep st e) (seen ++ [e])
      (fun hc => absurd hc (selUnpartStep_acc st e))
      (selUnpartStep_inv st e seen hnone hinv)
    simpa [List.append_assoc] using step

/-- Claim C5: over a non-empty manifest list of an unpartitioned table
the selector fold yields an entry of the list whose `added_rows_count` is
at most every other entry's known count; an entry with an unknown count
is treated as infinite, so it is never kept over an entry with a known
count. -/
theorem C5_selector_min (entries : List ManifestListEntry) (hne : entries ≠ []) :
    (selectUnpartitioned entries).acc ≠ none ∧
    ∀ rc m, (selectUnpartitioned entries).acc = some (rc, m) →
      m ∈ entries ∧ rc = m.added_rows_count ∧
      ∀ e ∈ entries, ∀ v, e.added_rows_count = some v → leOpt rc v := by
  have h := selUnpart_fold_inv entries ⟨none, [], 0⟩ [] (fun _ => rfl)
    (by intro rc m hacc; cases hacc)
  unfold selectUnpartitioned
  simp only [List.nil_append] at h
  exact ⟨fun hc => hne (h.1 hc), h.2⟩

/-- Claim C5 witness: over the fixture list whose counts are unknown, 5,
and 3, the selector keeps the entry with count 3, a member of the list
with count at most 5. -/
theorem C5_witness :
    listEntryFix "p3" (some 1) (some 3) ∈ entriesFix ∧
    leOpt (some 3) 5 := by
  have h := C5_selector_min entriesFix (by decide)
  have hacc : (selectUnpartitioned entriesFix).acc
      = some (some 3, listEntryFix "p3" (some 1) (some 3)) := by decide
  obtain ⟨hmem, hrc, hmin⟩ := h.2 (some 3) (listEntryFix "p3" (some 1) (some 3)) hacc
  exact ⟨hmem, hmin (listEntryFix "p2" (some 1) (some 5)) (by decide) 5 (by decide)⟩

theorem insertGrouped_ne_nil (acc : List (Struct × List DataFile))
    (key : Struct) (f : DataFile) : insertGrouped acc key f ≠ [] := by
  cases acc with
  | nil => simp [insertGrouped]
  | cons hd tl =>
    rcases hd with ⟨k, gs⟩
    unfold insertGrouped
    by_cases h : k = key <;> simp [h]

theorem insertGrouped_lookup_self (acc : List (Struct × List DataFile))
    (key : Struct) (f : DataFile) :
    alookup (insertGrouped acc key f) key
      = some ((alookup acc key).getD [] ++ [f]) := by
  induction acc with
  | nil => simp [insertGrouped, alookup]
  | cons hd tl ih =>
    rcases hd with ⟨k, gs⟩
    by_cases h : k = key
    · subst h
      simp [insertGrouped, alookup]
    · simp [insertGrouped, alookup, h, ih]

theorem insertGrouped_lookup_other (acc : List (Struct × List DataFile))
    (key : Struct) (f : DataFile) (k' : Struct) (hne : k' ≠ key) :
    alookup (insertGrouped acc key f) k' = alookup acc k' := by
  induction acc with
  | nil =>
    have hkk : ¬ key = k' := fun hh => hne hh.symm
    simp [insertGrouped, alookup, hkk]
  | cons hd tl ih =>
    rcases hd with ⟨k, gs⟩
    by_cases h : k = key
    · have hkk : ¬ k = k' := fun hh => hne (hh ▸ h)
      rw [insertGrouped, if_pos h]
      simp [alookup, hkk]
    · by_cases h2 : k = k'
      · rw [insertGrouped, if_neg h]
        simp [alookup, h2]
      · rw [insertGrouped, if_neg h]
        simp [alookup, h2, ih]

theorem insertGrouped_keys (acc : List (Struct × List DataFile))
    (key : Struct) (f : DataFile) :
    (insertGrouped acc key f).map (·.1) = acc.map (·.1) ∨
    ((insertGrouped acc key f).map (·.1) = acc.map (·.1) ++ [key] ∧
      key ∉ acc.map (·.1)) := by
  induction acc with
  | nil =>
    right
    simp [insertGrouped]
  | cons hd tl ih =>
    rcases hd with ⟨k, gs⟩
    by_cases h : k = key
    · left
      simp [insertGrouped, h]
    · rcases ih with ih | ⟨ih1, ih2⟩
      · left
        simp [insertGrouped, h, ih]
      · right
        refine ⟨by simp [insertGrouped, h, ih1], ?_⟩
        intro hmem
        rcases List.mem_cons.mp hmem with h' | h'
        · exact h h'.symm
        · exact ih2 h'

theorem insertGrouped_partition_inv (key : Struct) (f : DataFile)
    (hf : f.partition = key) :
    ∀ acc, (∀ g ∈ acc, ∀ x ∈ g.2, x.partition = g.1) →
      ∀ g ∈ insertGrouped acc key f, ∀ x ∈ g.2, x.partition = g.1 := by
  intro acc
  induction acc with
  | nil =>
    intro _ g hg x hx
    simp [insertGrouped] at hg
    subst hg
    simp at hx
    subst hx
    exact hf
  | cons hd tl ih =>
    rcases hd with ⟨k, gs⟩
    intro hacc g hg x hx
    by_cases h : k = key
    · rw [insertGrouped, if_pos h] at hg
      rcases List.mem_cons.mp hg with hg | hg
      · subst hg
        rcases List.mem_append.mp hx with hx2 | hx2
        · exact hacc (k, gs) (by simp) x hx2
        · have hxf : x = f := List.mem_singleton.mp hx2
          rw [hxf, hf]
          exact h.symm
      · exact hacc g (List.mem_cons_of_mem _ hg) x hx
    · rw [insertGrouped, if_neg h] at hg
      rcases List.mem_cons.mp hg with hg | hg
      · subst hg
        exact hacc (k, gs) (by simp) x hx
      · exact ih (fun g' hg' => hacc g' (List.mem_cons_of_mem _ hg')) g hg x hx

theorem groupByPartition_partitions (files : List DataFile) :
    ∀ g ∈ groupByPartition files, ∀ x ∈ g.2, x.partition = g.1 := by
  have main : ∀ (fs : List DataFile) (acc : List (Struct × List DataFile)),
      (∀ g ∈ acc, ∀ x ∈ g.2, x.partition = g.1) →
      ∀ g ∈ fs.foldl (fun a f => insertGrouped a f.partition f) acc,
        ∀ x ∈ g.2, x.partition = g.1 := by
    intro fs
    induction fs with
    | nil => intro acc h; simpa using h
    | cons f rest ih =>
      intro acc h
      exact ih _ (insertGrouped_partition_inv f.partition f rfl acc h)
  exact main files [] (by simp)

theorem groupByPartition_nodup (files : List DataFile) :
    ((groupByPartition files).map (·.1)).Nodup := by
  have step : ∀ (acc : List (Struct × List DataFile)) (key : Struct) (f : DataFile),
      (acc.map (·.1)).Nodup → ((insertGrouped acc key f).map (·.1)).Nodup := by
    intro acc key f h
    rcases insertGrouped_keys acc key f with hk | ⟨hk1, hk2⟩
    · rw [hk]
      exact h
    · rw [hk1]
      refine h.append (List.nodup_singleton key) ?_
      intro a ha hb
      rw [List.mem_singleton] at hb
      subst hb
      exact hk2 ha
  have main : ∀ (fs : List DataFile) (acc : List (Struct × List DataFile)),
      (acc.map (·.1)).Nodup →
      ((fs.foldl (fun a f => insertGrouped a f.partition f) acc).map (·.1)).Nodup := by
    intro fs
    induction fs with
    | nil => intro acc h; simpa using h
    | cons f rest ih => intro acc h; exact ih _ (step acc f.partition f h)
  exact main files [] (by simp)

theorem groupByPartition_mem (files : List DataFile) :
    ∀ x ∈ files, x ∈ (alookup (groupByPartition files) x.partition).getD [] := by
  have pres : ∀ (acc : List (Struct × List DataFile)) (key : Struct)
      (f : DataFile) (x : DataFile),
      x ∈ (alookup acc x.partition).getD [] →
      x ∈ (alookup (insertGrouped acc key f) x.partition).getD [] := by
    intro acc key f x hx
    by_cases h : x.partition = key
    · rw [h] at hx ⊢
      rw [insertGrouped_lookup_self]
      simp only [Option.getD_some]
      exact List.mem_append_left _ hx
    · rw [insertGrouped_lookup_other acc key f _ h]
      exact hx
  have self : ∀ (acc : List (Struct × List DataFile)) (f : DataFile),
      f ∈ (alookup (insertGrouped acc f.partition f) f.partition).getD [] := by
    intro acc f
    rw [insertGrouped_lookup_self]
    simp
  have main : ∀ (fs : List DataFile) (acc : List (Struct × List DataFile))
      (processed : List DataFile),
      (∀ x ∈ processed, x ∈ (alookup acc x.partition).getD []) →
      ∀ x ∈ processed ++ fs,
        x ∈ (alookup (fs.foldl (fun a f => insertGrouped a f.partition f) acc)
          x.partition).getD [] := by
    intro fs
    induction fs with
    | nil =>
      intro acc processed h x hx
      exact h x (by simpa using hx)
    | cons f rest ih =>
      intro acc processed h x hx
      have h' : ∀ y ∈ processed ++ [f],
          y ∈ (alookup (insertGrouped acc f.partition f) y.partition).getD [] := by
        intro y hy
        rcases List.mem_append.mp hy with hy | hy
        · exact pres acc f.partition f y (h y hy)
        · rw [List.mem_singleton] at hy
          subst hy
          exact self acc y
      have hx' : x ∈ (processed ++ [f]) ++ rest := by
        rw [← List.append_cons]
        exact hx
      exact ih (insertGrouped acc f.partition f) (processed ++ [f]) h' x hx'
  intro x hx
  exact main files [] [] (by simp) x (by simpa using hx)

theorem groupByPartition_snd_ne (files : List DataFile) :
    ∀ g ∈ groupByPartition files, g.2 ≠ [] := by
  have step : ∀ (acc : List (Struct × List DataFile)) (key : Struct) (f : DataFile),
      (∀ g ∈ acc, g.2 ≠ []) → ∀ g ∈ insertGrouped acc key f, g.2 ≠ [] := by
    intro acc
    induction acc with
    | nil =>
      intro key f _ g hg
      simp [insertGrouped] at hg
      subst hg
      simp
    | cons hd tl ih =>
      rcases hd with ⟨k, gs⟩
      intro key f hacc g hg
      by_cases h : k = key
      · rw [insertGrouped, if_pos h] at hg
        rcases List.mem_cons.mp hg with hg | hg
        · subst hg
          simp
        · exact hacc g (List.mem_cons_of_mem _ hg)
      · rw [insertGrouped, if_neg h] at hg
        rcases List.mem_cons.mp hg with hg | hg
        · subst hg
          exact hacc (k, gs) (by simp)
        · exact ih key f (fun g' hg' => hacc g' (List.mem_cons_of_mem _ hg')) g hg
  have main : ∀ (fs : List DataFile) (acc : List (Struct × List DataFile)),
      (∀ g ∈ acc, g.2 ≠ []) →
      ∀ g ∈ fs.foldl (fun a f => insertGrouped a f.partition f) acc, g.2 ≠ [] := by
    intro fs
    induction fs with
    | nil => intro acc h; simpa using h
    | cons f rest ih => intro acc h; exact ih _ (step acc f.partition f h)
  exact main files [] (by simp)

theorem groupByPartition_ne_nil {files : List DataFile} (h : files ≠ []) :
    groupByPartition files ≠ [] := by
  have main : ∀ (fs : List DataFile) (acc : List (Struct × List DataFile)),
      acc ≠ [] → fs.foldl (fun a f => insertGrouped a f.partition f) acc ≠ [] := by
    intro fs
    induction fs with
    | nil => intro acc hacc; simpa using hacc
    | cons f rest ih => intro acc _; exact ih _ (insertGrouped_ne_nil acc f.partition f)
  cases files with
  | nil => exact absurd rfl h
  | cons f rest =>
    unfold groupByPartition
    rw [List.foldl_cons]
    exact main rest _ (insertGrouped_ne_nil [] f.partition f)

theorem alookup_self {α β : Type} [DecidableEq α] :
    ∀ (l : List (α × β)), (l.map (·.1)).Nodup →
      ∀ g ∈ l, alookup l g.1 = some g.2 := by
  intro l
  induction l with
  | nil => intro _ g hg; cases hg
  | cons hd tl ih =>
    rcases hd with ⟨k, v⟩
    intro hnd g hg
    rcases List.mem_cons.mp hg with hg | hg
    · subst hg
      simp [alookup]
    · have hk : k ≠ g.1 := by
        intro hkg
        have hmem : g.1 ∈ tl.map (·.1) := List.mem_map.mpr ⟨g, hg, rfl⟩
        rw [List.map_cons] at hnd
        exact (List.nodup_cons.mp hnd).1 (hkg ▸ hmem)
      simp only [alookup, hk, if_false]
      rw [List.map_cons] at hnd
      exact ih (List.nodup_cons.mp hnd).2 g hg

theorem mkRewriteEntry_ok {md : TableMetadata} {branch : Option String}
    {f : DataFile} {e : ManifestEntry}
    (h : mkRewriteEntry md branch f = .ok e) :
    e.data_file = f ∧ e.status = .added := by
  unfold mkRewriteEntry at h
  obtain ⟨sid', _, h⟩ := bindOk h
  obtain ⟨snapOpt, _, h⟩ := bindOk h
  obtain ⟨seq, _, h⟩ := bindOk h
  simp only [Pure.pure, Except.pure, Except.ok.injEq] at h
  rw [← h]
  exact ⟨rfl, rfl⟩

theorem mapM_mkRewriteEntry (md : TableMetadata) (branch : Option String) :
    ∀ (fs : List DataFile) (es : List ManifestEntry),
      fs.mapM (mkRewriteEntry md branch) = .ok es →
      es.map (·.data_file) = fs ∧ ∀ e ∈ es, e.status = .added := by
  intro fs
  induction fs with
  | nil =>
    intro es h
    rw [List.mapM_nil] at h
    have hnil : es = [] := by simpa [Pure.pure, Except.pure] using h.symm
    subst hnil
    exact ⟨rfl, by intro e he; cases he⟩
  | cons f rest ih =>
    intro es h
    rw [List.mapM_cons] at h
    obtain ⟨e, he, h⟩ := bindOk h
    obtain ⟨es', hes, h⟩ := bindOk h
    have hse : es = e :: es' := by simpa [Pure.pure, Except.pure] using h.symm
    subst hse
    obtain ⟨ih1, ih2⟩ := ih es' hes
    obtain ⟨hdf, hst⟩ := mkRewriteEntry_ok he
    refine ⟨by simp [ih1, hdf], ?_⟩
    intro x hx
    rcases List.mem_cons.mp hx with hx | hx
    · subst hx
      exact hst
    · exact ih2 x hx

theorem rewriteCountsStep_ok {md : TableMetadata} {branch : Option String}
    {pfields : List PartitionField} {fcnt : Int}
    {st : ManifestListEntry × List ManifestEntry} {f : DataFile}
    {st' : ManifestListEntry × List ManifestEntry}
    (h : rewriteCountsStep md branch pfields fcnt st f = .ok st') :
    ∃ entry, mkRewriteEntry md branch f = .ok entry ∧
      st'.2 = st.2 ++ [entry] ∧ st'.1.manifest_path = st.1.manifest_path := by
  unfold rewriteCountsStep at h
  obtain ⟨entry, hent, h⟩ := bindOk h
  simp only [Pure.pure, Except.pure, Except.ok.injEq] at h
  subst h
  refine ⟨entry, hent, rfl, ?_⟩
  by_cases hp : st.1.partitions.isNone <;> simp [hp]

theorem rewriteCounts_fold (md : TableMetadata) (branch : Option String)
    (pfields : List PartitionField) (fcnt : Int) :
    ∀ (fs : List DataFile) (st : ManifestListEntry × List ManifestEntry)
      (res : ManifestListEntry × List ManifestEntry),
      fs.foldlM (rewriteCountsStep md branch pfields fcnt) st = .ok res →
      ∃ es, fs.mapM (mkRewriteEntry md branch) = .ok es ∧
        res.2 = st.2 ++ es ∧ res.1.manifest_path = st.1.manifest_path := by
  intro fs
  induction fs with
  | nil =>
    intro st res h
    rw [List.foldlM_nil] at h
    have hsr : st = res := by simpa [Pure.pure, Except.pure] using h
    subst hsr
    exact ⟨[], by rw [List.mapM_nil]; rfl, by simp, rfl⟩
  | cons f rest ih =>
    intro st res h
    rw [List.foldlM_cons] at h
    obtain ⟨st1, hstep, h⟩ := bindOk h
    obtain ⟨entry, hent, h2, h3⟩ := rewriteCountsStep_ok hstep
    obtain ⟨es, hes, r2, r3⟩ := ih st1 res h
    refine ⟨entry :: es, ?_, ?_, ?_⟩
    · rw [List.mapM_cons, hent, hes]
      simp [Bind.bind, Except.bind, Pure.pure, Except.pure]
    · rw [r2, h2]
      simp
    · rw [r3, h3]

theorem manifestFilesLoop_single {md : TableMetadata} {branch : Option String}
    {pfields : List PartitionField} {fcnt : Int}
    {datafiles : List (Struct × List DataFile)} {key : Struct}
    {st res : ManifestListEntry × List ManifestEntry} {g : List DataFile}
    (hlk : alookup datafiles key = some g)
    (h : manifestFilesLoop md branch pfields fcnt datafiles [key] st = .ok res) :
    ∃ es, g.mapM (mkRewriteEntry md branch) = .ok es ∧
      res.2 = st.2 ++ es ∧ res.1.manifest_path = st.1.manifest_path := by
  unfold manifestFilesLoop at h
  rw [List.foldlM_cons] at h
  obtain ⟨st1, hstep, h⟩ := bindOk h
  rw [List.foldlM_nil] at h
  have hst1 : st1 = res := by simpa [Pure.pure, Except.pure] using h
  subst hst1
  obtain ⟨group, hg, hstep⟩ := bindOk hstep
  unfold lookupGroup at hg
  rw [hlk] at hg
  have hgg : group = g := by simpa using hg.symm
  subst hgg
  exact rewriteCounts_fold md branch pfields fcnt group st st1 hstep

theorem write_manifest_ok {md : TableMetadata} {man : ManifestListEntry}
    {key : Struct} {datafiles : List (Struct × List DataFile)}
    {branch : Option String} {ops : List StoreOp} {entry : ManifestListEntry}
    {g : List DataFile}
    (hlk : alookup datafiles key = some g)
    (h : write_manifest md man [key] datafiles branch = (ops, .ok entry)) :
    ∃ es, g.mapM (mkRewriteEntry md branch) = .ok es ∧
      ops = [.put (stripScheme man.manifest_path) (.manifest es)] := by
  unfold write_manifest at h
  rcases hps : md.default_partition_spec with e | pfields <;> rw [hps] at h
  · simp at h
  · dsimp only at h
    rcases hloop : manifestFilesLoop md branch pfields
        (man.added_files_count.getD 0 + i32OfUsize [key].length) datafiles [key]
        (man, []) with e | st <;> rw [hloop] at h
    · simp at h
    · rcases st with ⟨final0, written⟩
      dsimp only at h
      rw [Prod.mk.injEq] at h
      obtain ⟨h1, _⟩ := h
      obtain ⟨es, hes, hw, hpath⟩ := manifestFilesLoop_single hlk hloop
      dsimp only at hw hpath
      simp only [List.nil_append] at hw
      refine ⟨es, hes, ?_⟩
      rw [← h1, hw]
      simp [hpath]

theorem mapM_groups_status (md : TableMetadata) (branch : Option String) :
    ∀ (gs : List (Struct × List DataFile)) (ess : List (List ManifestEntry)),
      gs.mapM (fun g => g.2.mapM (mkRewriteEntry md branch)) = .ok ess →
      (∀ es ∈ ess, ∀ e ∈ es, e.status = .added) ∧
      List.Forall₂ (fun (g : Struct × List DataFile) (es : List ManifestEntry) =>
        es.map (·.data_file) = g.2) gs ess := by
  intro gs
  induction gs with
  | nil =>
    intro ess h
    rw [List.mapM_nil] at h
    have hnil : ess = [] := by simpa [Pure.pure, Except.pure] using h.symm
    subst hnil
    exact ⟨fun es hes => (List.not_mem_nil es hes).elim, List.Forall₂.nil⟩
  | cons g rest ih =>
    intro ess h
    rw [List.mapM_cons] at h
    obtain ⟨es, hes, h⟩ := bindOk h
    obtain ⟨ess', hess, h⟩ := bindOk h
    have hse : ess = es :: ess' := by simpa [Pure.pure, Except.pure] using h.symm
    subst hse
    obtain ⟨ihst, ihf2⟩ := ih ess' hess
    obtain ⟨hdf, hst⟩ := mapM_mkRewriteEntry md branch g.2 es hes
    refine ⟨?_, List.Forall₂.cons hdf ihf2⟩
    intro es' hes' e he
    rcases List.mem_cons.mp hes' with hh | hh
    · subst hh
      exact hst e he
    · exact ihst es' hh e he

theorem writeManifests_ok (md : TableMetadata) (branch : Option String)
    (datafiles : List (Struct × List DataFile)) (sid : Int) (uuid : String) :
    ∀ (gs : List (Struct × List DataFile)) (i : Nat) (wops : List StoreOp)
      (entries : List ManifestListEntry),
      (∀ g ∈ gs, alookup datafiles g.1 = some g.2) →
      writeManifests md branch datafiles sid uuid i gs = (wops, .ok entries) →
      ∃ ess, gs.mapM (fun g => g.2.mapM (mkRewriteEntry md branch)) = .ok ess ∧
        manifestPuts wops = ess ∧ noGets wops = true ∧ ess.length = gs.length := by
  intro gs
  induction gs with
  | nil =>
    intro i wops entries _ h
    unfold writeManifests at h
    rw [Prod.mk.injEq] at h
    obtain ⟨h1, _⟩ := h
    refine ⟨[], by rw [List.mapM_nil]; rfl, ?_, ?_, rfl⟩
    · rw [← h1]
      rfl
    · rw [← h1]
      rfl
  | cons hd rest ih =>
    rcases hd with ⟨key, g⟩
    intro i wops entries hlk h
    unfold writeManifests at h
    dsimp only at h
    rcases hwm : write_manifest md (freshListEntry md (manifestPath md uuid i) sid)
        [key] datafiles branch with ⟨ops, r⟩
    rw [hwm] at h
    rcases r with e | entry
    · simp at h
    · dsimp only at h
      rcases hrec : writeManifests md branch datafiles sid uuid (i + 1) rest
        with ⟨ops2, r2⟩
      rw [hrec] at h
      rcases r2 with e | entries2
      · simp at h
      · dsimp only at h
        rw [Prod.mk.injEq] at h
        obtain ⟨h1, _⟩ := h
        obtain ⟨es, hes, hops⟩ := write_manifest_ok (hlk (key, g) (by simp)) hwm
        obtain ⟨ess2, hess2, hmp2, hng2, hlen2⟩ := ih (i + 1) ops2 entries2
          (fun g' hg' => hlk g' (List.mem_cons_of_mem _ hg')) hrec
        refine ⟨es :: ess2, ?_, ?_, ?_, ?_⟩
        · rw [List.mapM_cons]
          dsimp only
          rw [hes, hess2]
          simp [Bind.bind, Except.bind, Pure.pure, Except.pure]
        · rw [← h1]
          unfold manifestPuts
          rw [List.filterMap_append]
          rw [hops]
          unfold manifestPuts at hmp2
          rw [hmp2]
          rfl
        · rw [← h1]
          unfold noGets
          rw [List.all_append]
          unfold noGets at hng2
          rw [hng2, hops]
          rfl
        · simp [hlen2]

/-- Claim C9: a successful Rewrite consults no existing manifests (its
trace contains no reads), writes exactly one manifest per distinct
partition value of the input files (the grouping keys are distinct and
cover exactly the partitions present), and the content of the i-th
manifest is exactly the group of input files with the i-th partition
value, each written as a status-`Added` entry. -/
theorem C9_rewrite_grouping (md : TableMetadata) (branch : Option String)
    (files : List DataFile) (adds : Option (List (String × String)))
    (sid : Int) (uuid : String)
    (hok : isOkB (rewriteExecute md branch files adds sid uuid).2 = true) :
    noGets (rewriteExecute md branch files adds sid uuid).1 = true ∧
    (groupByPartition files).mapM (fun g => g.2.mapM (mkRewriteEntry md branch))
      = .ok (manifestPuts (rewriteExecute md branch files adds sid uuid).1) ∧
    (manifestPuts (rewriteExecute md branch files adds sid uuid).1).length
      = (groupByPartition files).length ∧
    List.Forall₂ (fun (g : Struct × List DataFile) (es : List ManifestEntry) =>
        es.map (·.data_file) = g.2)
      (groupByPartition files)
      (manifestPuts (rewriteExecute md branch files adds sid uuid).1) ∧
    (∀ es ∈ manifestPuts (rewriteExecute md branch files adds sid uuid).1,
      ∀ e ∈ es, e.status = .added) ∧
    (∀ g ∈ groupByPartition files, ∀ x ∈ g.2, x.partition = g.1) ∧
    ((groupByPartition files).map (·.1)).Nodup ∧
    (∀ x ∈ files, x ∈ (alookup (groupByPartition files) x.partition).getD []) := by
  obtain ⟨res, h2⟩ := isOkB_ok hok
  have h : rewriteExecute md branch files adds sid uuid
      = ((rewriteExecute md branch files adds sid uuid).1, .ok res) := by
    rw [← h2]
  obtain ⟨old, schema, wops, entries, _, _, hwm, hops, _⟩ := rewriteExecute_ok h
  have hnd : ((groupByPartition files).map (·.1)).Nodup := groupByPartition_nodup files
  obtain ⟨ess, hess, hmp, hng, hlen⟩ := writeManifests_ok md branch _ sid uuid
    (groupByPartition files) 0 wops entries (alookup_self _ hnd) hwm
  have hmpeq : manifestPuts (rewriteExecute md branch files adds sid uuid).1
      = ess := by
    rw [hops]
    unfold manifestPuts
    rw [List.filterMap_append]
    unfold manifestPuts at hmp
    rw [hmp]
    simp
  obtain ⟨hstatus, hf2⟩ := mapM_groups_status md branch (groupByPartition files) ess hess
  refine ⟨?_, ?_, ?_, ?_, ?_, groupByPartition_partitions files, hnd,
    groupByPartition_mem files⟩
  · rw [hops]
    unfold noGets
    rw [List.all_append]
    unfold noGets at hng
    rw [hng]
    rfl
  · rw [hmpeq]
    exact hess
  · rw [hmpeq, hlen]
  · rw [hmpeq]
    exact hf2
  · rw [hmpeq]
    exact hstatus

/-- Claim C9 witness: the Rewrite grouping facts at the one-snapshot
table with two unpartitioned files. -/
theorem C9_witness :
    noGets (rewriteExecute mdOne none files2 none 43 "u2").1 = true ∧
    (groupByPartition files2).mapM (fun g => g.2.mapM (mkRewriteEntry mdOne none))
      = .ok (manifestPuts (rewriteExecute mdOne none files2 none 43 "u2").1) ∧
    (manifestPuts (rewriteExecute mdOne none files2 none 43 "u2").1).length
      = (groupByPartition files2).length :=
  have h := C9_rewrite_grouping mdOne none files2 none 43 "u2" (by decide)
  ⟨h.1, h.2.1, h.2.2.1⟩

theorem bindError {ε α β : Type} {x : Except ε α} {f : α → Except ε β} {e : ε}
    (h : x = .error e) : x >>= f = .error e := by
  rw [h]
  rfl

theorem mkRewriteEntry_fails {md : TableMetadata} {branch : Option String}
    (f : DataFile)
    (h : md.current_snapshot_id = none ∨ md.current_snapshot branch = .ok none) :
    ∃ a b, mkRewriteEntry md branch f = .error (.notFound a b) := by
  unfold mkRewriteEntry
  rcases h with h | h
  · exact ⟨"Snapshot", "id", by simp [getSnapshotIdE, h, Bind.bind, Except.bind]⟩
  · rcases hid : md.current_snapshot_id with _ | id
    · exact ⟨"Snapshot", "id",
        by simp [getSnapshotIdE, hid, Bind.bind, Except.bind]⟩
    · exact ⟨"Sequence", "number",
        by simp [getSnapshotIdE, hid, h, getSeqE, Bind.bind, Except.bind]⟩

theorem rewriteCountsStep_fail {md : TableMetadata} {branch : Option String}
    {pfields : List PartitionField} {fcnt : Int}
    {st : ManifestListEntry × List ManifestEntry} {f : DataFile} {err : Error}
    (h : mkRewriteEntry md branch f = .error err) :
    rewriteCountsStep md branch pfields fcnt st f = .error err := by
  unfold rewriteCountsStep
  simp [h, Bind.bind, Except.bind]

theorem foldlM_head_fail {α β : Type} {step : β → α → Except Error β} {st : β}
    {f : α} {fs : List α} {err : Error} (h : step st f = .error err) :
    (f :: fs).foldlM step st = .error err := by
  rw [List.foldlM_cons]
  exact bindError h

theorem manifestFilesLoop_fail {md : TableMetadata} {branch : Option String}
    {pfields : List PartitionField} {fcnt : Int}
    {datafiles : List (Struct × List DataFile)} {key : Struct}
    {g g' : List DataFile} {f : DataFile} {err : Error}
    (hlk : alookup datafiles key = some g) (hg : g = f :: g')
    (herr : mkRewriteEntry md branch f = .error err)
    (st : ManifestListEntry × List ManifestEntry) :
    manifestFilesLoop md branch pfields fcnt datafiles [key] st = .error err := by
  subst hg
  unfold manifestFilesLoop
  rw [List.foldlM_cons]
  apply bindError
  dsimp only
  have hlg : lookupGroup datafiles key = .ok (f :: g') := by
    simp [lookupGroup, hlk]
  simp only [Bind.bind, Except.bind, hlg]
  exact foldlM_head_fail (rewriteCountsStep_fail herr)

theorem write_manifest_fail {md : TableMetadata} {man : ManifestListEntry}
    {key : Struct} {datafiles : List (Struct × List DataFile)}
    {branch : Option String} {g g' : List DataFile} {f : DataFile}
    (hlk : alookup datafiles key = some g) (hg : g = f :: g')
    (h : md.current_snapshot_id = none ∨ md.current_snapshot branch = .ok none) :
    ∃ a b, write_manifest md man [key] datafiles branch
      = ([], .error (.notFound a b)) := by
  unfold write_manifest
  rcases hps : md.default_partition_spec with e | pfields
  · obtain ⟨a, b, hab⟩ := default_partition_spec_error hps
    subst hab
    exact ⟨a, b, rfl⟩
  · obtain ⟨a, b, herr⟩ := mkRewriteEntry_fails f h
    refine ⟨a, b, ?_⟩
    dsimp only
    rw [manifestFilesLoop_fail hlk hg herr]

theorem writeManifests_head_fail {md : TableMetadata} {branch : Option String}
    {datafiles : List (Struct × List DataFile)} {sid : Int} {uuid : String}
    {i : Nat} {key : Struct} {grest : List DataFile} {err : Error}
    (hwf : write_manifest md (freshListEntry md (manifestPath md uuid i) sid)
      [key] datafiles branch = ([], .error err))
    (rest : List (Struct × List DataFile)) :
    writeManifests md branch datafiles sid uuid i ((key, grest) :: rest)
      = ([], .error err) := by
  unfold writeManifests
  dsimp only
  rw [hwf]

/-- Claim C10: Rewrite with a non-empty files list fails with a
`NotFound` error — performing no store operation — whenever the metadata
has no current snapshot id or no current snapshot on the branch; the
manifest entries take their snapshot id and sequence number from the
current snapshot, so Rewrite cannot produce the first snapshot of an
empty table. -/
theorem C10_rewrite_needs_snapshot (md : TableMetadata) (branch : Option String)
    (files : List DataFile) (adds : Option (List (String × String)))
    (sid : Int) (uuid : String) (hne : files ≠ [])
    (h : md.current_snapshot_id = none ∨ md.current_snapshot branch = .ok none) :
    (rewriteExecute md branch files adds sid uuid).1 = [] ∧
    isNotFoundB (rewriteExecute md branch files adds sid uuid).2 = true := by
  unfold rewriteExecute
  rcases hcs : md.current_snapshot branch with e | old
  · obtain ⟨a, b, hab⟩ := current_snapshot_error hcs
    subst hab
    exact ⟨rfl, rfl⟩
  · rcases hsc : md.current_schema branch with e | schema
    · obtain ⟨a, b, hab⟩ := current_schema_error hsc
      subst hab
      exact ⟨rfl, rfl⟩
    · dsimp only
      rcases hgrp : groupByPartition files with _ | ⟨⟨key, g⟩, rest⟩
      · exact absurd hgrp (groupByPartition_ne_nil hne)
      · have hgne : g ≠ [] := by
          have hmem := groupByPartition_snd_ne files (key, g) (by rw [hgrp]; simp)
          simpa using hmem
        obtain ⟨f, g', hgl⟩ : ∃ f g', g = f :: g' := by
          cases g with
          | nil => exact absurd rfl hgne
          | cons f g' => exact ⟨f, g', rfl⟩
        have hlk : alookup ((key, g) :: rest) key = some g := by simp [alookup]
        obtain ⟨a, b, hwf⟩ := @write_manifest_fail md
          (freshListEntry md (manifestPath md uuid 0) sid) key
          ((key, g) :: rest) branch g g' f hlk hgl h
        rw [writeManifests_head_fail hwf rest]
        exact ⟨rfl, rfl⟩

/-- Claim C10 witness: Rewrite of two files against the empty table fails
with `NotFound` and writes nothing. -/
theorem C10_witness :
    (rewriteExecute mdEmpty none files2 none 43 "u9").1 = [] ∧
    isNotFoundB (rewriteExecute mdEmpty none files2 none 43 "u9").2 = true :=
  C10_rewrite_needs_snapshot mdEmpty none files2 none 43 "u9" (by decide)
    (Or.inl (by decide))

end Iceberg
